import Mathlib

/-!
Verification development for the schoolutils grade calculation and
aggregation engine.

The Python source is shallowly embedded: Python floats are modelled by
`PyF` (exact rationals plus NaN and the two infinities, with IEEE-style
comparison semantics where NaN compares false against everything);
dynamically-typed grade values by `GVal`; Python exceptions by the
`PyErr` inductive carried in `Except`.  The SQLite store is modelled as
explicit lists of rows with the primary-key and truthiness conventions
of the source's query builders (`make_values_clause` and
`make_conjunction_clause` drop falsy parameters, so a `0`/`""` argument
means "no constraint" or "store NULL").

Functions called by the source but absent from it
(`update_grade`, `select_grades_for_course_members`,
`freqs_for_letters`, `freqs_for_numbers`, the full assignment-row
provider used by reports) are modelled from the specification and
marked as such in their doc comments.
-/

deriving instance DecidableEq for Except

namespace Schoolutils

/-- Model of a Python float: NaN, +inf, -inf, or a finite value
    (modelled as an exact rational). -/
inductive PyF where
  | nan : PyF
  | pinf : PyF
  | ninf : PyF
  | fin : ℚ → PyF
deriving DecidableEq

namespace PyF

/-- `math.isnan`. -/
def isnan : PyF → Bool
  | .nan => true
  | _ => false

/-- IEEE `<=`: NaN compares false against everything. -/
def le : PyF → PyF → Bool
  | .nan, _ => false
  | _, .nan => false
  | .ninf, _ => true
  | _, .ninf => false
  | _, .pinf => true
  | .pinf, _ => false
  | .fin a, .fin b => a ≤ b

/-- IEEE `<`: NaN compares false against everything. -/
def lt : PyF → PyF → Bool
  | .nan, _ => false
  | _, .nan => false
  | .ninf, .ninf => false
  | .ninf, _ => true
  | _, .ninf => false
  | .pinf, _ => false
  | .fin _, .pinf => true
  | .fin a, .fin b => a < b

/-- Python float `==`: NaN is not equal to itself. -/
def eqv : PyF → PyF → Bool
  | .nan, _ => false
  | _, .nan => false
  | .pinf, .pinf => true
  | .ninf, .ninf => true
  | .fin a, .fin b => a == b
  | _, _ => false

/-- Python float addition (also used for `sum` starting from int 0). -/
def add : PyF → PyF → PyF
  | .nan, _ => .nan
  | _, .nan => .nan
  | .pinf, .ninf => .nan
  | .ninf, .pinf => .nan
  | .pinf, _ => .pinf
  | _, .pinf => .pinf
  | .ninf, _ => .ninf
  | _, .ninf => .ninf
  | .fin a, .fin b => .fin (a + b)

/-- Python float multiplication. -/
def mul : PyF → PyF → PyF
  | .nan, _ => .nan
  | _, .nan => .nan
  | .pinf, .pinf => .pinf
  | .pinf, .ninf => .ninf
  | .ninf, .pinf => .ninf
  | .ninf, .ninf => .pinf
  | .pinf, .fin b => if b = 0 then .nan else if 0 < b then .pinf else .ninf
  | .fin a, .pinf => if a = 0 then .nan else if 0 < a then .pinf else .ninf
  | .ninf, .fin b => if b = 0 then .nan else if 0 < b then .ninf else .pinf
  | .fin a, .ninf => if a = 0 then .nan else if 0 < a then .ninf else .pinf
  | .fin a, .fin b => .fin (a * b)

/-- Python truthiness of a float: only (positive or negative) zero is
    falsy; NaN and the infinities are truthy. -/
def truthy : PyF → Bool
  | .fin a => a != 0
  | _ => true

end PyF

/-- Python exception objects, as far as the embedded code can raise or
    inspect them. `scaleRangeError` is the `ValueError` raised by
    `number_to_letter`, kept structured so that the carried value and
    scale bounds are inspectable. -/
inductive PyErr where
  | valueError : String → PyErr
  | scaleRangeError : PyF → PyF → PyF → PyErr
  | typeError : String → PyErr
  | indexError : PyErr
  | zeroDivisionError : PyErr
  | noRecordsFound : PyErr
  | multipleRecordsFound : PyErr
deriving DecidableEq

namespace PyErr

/-- `isinstance(e, ValueError)`. -/
def isValueError : PyErr → Bool
  | .valueError _ => true
  | .scaleRangeError _ _ _ => true
  | _ => false

/-- `isinstance(e, TypeError)`. -/
def isTypeError : PyErr → Bool
  | .typeError _ => true
  | _ => false

end PyErr

/-- Python float division. Raises `ZeroDivisionError` whenever the
    denominator is exactly zero (even for NaN or infinite numerators),
    as CPython does. -/
def PyF.div (a b : PyF) : Except PyErr PyF :=
  match b with
  | .fin q =>
    if q = 0 then .error .zeroDivisionError
    else
      match a with
      | .nan => .ok .nan
      | .pinf => .ok (if 0 < q then .pinf else .ninf)
      | .ninf => .ok (if 0 < q then .ninf else .pinf)
      | .fin p => .ok (.fin (p / q))
  | .nan => .ok .nan
  | .pinf =>
    match a with
    | .nan => .ok .nan
    | .pinf => .ok .nan
    | .ninf => .ok .nan
    | .fin _ => .ok (.fin 0)
  | .ninf =>
    match a with
    | .nan => .ok .nan
    | .pinf => .ok .nan
    | .ninf => .ok .nan
    | .fin _ => .ok (.fin 0)

/-- A dynamically-typed Python value as it occurs in grade rows:
    a string, a float, or `None`. -/
inductive GVal where
  | vstr : String → GVal
  | vnum : PyF → GVal
  | vnone : GVal
deriving DecidableEq

namespace GVal

/-- Python truthiness: `None`, `0.0` and `""` are falsy. -/
def truthy : GVal → Bool
  | .vstr s => s != ""
  | .vnum f => f.truthy
  | .vnone => false

/-- Python 2 `<` between values of possibly different types: `None`
    sorts below everything, numbers below strings; numbers compare by
    IEEE value (so NaN compares false against other numbers) and
    strings lexicographically. -/
def lt : GVal → GVal → Bool
  | .vnone, .vnone => false
  | .vnone, _ => true
  | _, .vnone => false
  | .vnum a, .vnum b => PyF.lt a b
  | .vnum _, .vstr _ => true
  | .vstr _, .vnum _ => false
  | .vstr a, .vstr b => a < b

end GVal

/-- Python 2 builtin `min` over a list of values: `ValueError` on an
    empty sequence, otherwise a left fold keeping the first element on
    ties (`if item < best`). -/
def py2min : List GVal → Except PyErr GVal
  | [] => .error (.valueError "min() arg is an empty sequence")
  | x :: xs => .ok (xs.foldl (fun best v => if GVal.lt v best then v else best) x)

/-- Python 2 builtin `max`, analogously (`if item > best`, and `a > b`
    holds exactly when `b < a` under the Python 2 mixed-type order). -/
def py2max : List GVal → Except PyErr GVal
  | [] => .error (.valueError "max() arg is an empty sequence")
  | x :: xs => .ok (xs.foldl (fun best v => if GVal.lt best v then v else best) x)

/-- Python builtin `min` over a list of floats. -/
def pyfMin : List PyF → Except PyErr PyF
  | [] => .error (.valueError "min() arg is an empty sequence")
  | x :: xs => .ok (xs.foldl (fun best v => if PyF.lt v best then v else best) x)

/-- Python builtin `max` over a list of floats. -/
def pyfMax : List PyF → Except PyErr PyF
  | [] => .error (.valueError "max() arg is an empty sequence")
  | x :: xs => .ok (xs.foldl (fun best v => if PyF.lt best v then v else best) x)

/-- `sum` over a list of floats, starting from int 0. -/
def pySum (l : List PyF) : PyF :=
  l.foldl PyF.add (.fin 0)

/-- `sum` over a list of dynamically-typed values, starting from int 0;
    a string or `None` summand raises `TypeError`. -/
def pySumG : List GVal → Except PyErr PyF :=
  go (.fin 0)
where
  go (acc : PyF) : List GVal → Except PyErr PyF
  | [] => .ok acc
  | .vnum f :: t => go (acc.add f) t
  | .vstr _ :: _ => .error (.typeError "unsupported operand type(s) for +")
  | .vnone :: _ => .error (.typeError "unsupported operand type(s) for +")

/-- `list.index(x)` over floats (Python `==`, so NaN is never found);
    `ValueError` when the value does not occur. -/
def pyIndex (l : List PyF) (x : PyF) : Except PyErr ℕ :=
  match l.findIdx? (fun p => PyF.eqv p x) with
  | some i => .ok i
  | none => .error (.valueError "x not in list")

/-- One row of a grading scale, source tuple format
    `(letter grade, point_value, exclusive_max, inclusive_min)`. -/
structure Band where
  grade : String
  val : PyF
  mx : PyF
  mn : PyF
deriving DecidableEq

/-- A grading scale: an ordered list of bands. -/
abbrev Scale := List Band

/-- The built-in 4.0-point scale `POINTS`. -/
def POINTS : Scale := [
  ⟨"A+", .fin 4.2, .fin 5.0, .fin 4.2⟩,
  ⟨"A", .fin 4.0, .fin 4.2, .fin 3.85⟩,
  ⟨"A-", .fin 3.7, .fin 3.85, .fin 3.5⟩,
  ⟨"B+", .fin 3.3, .fin 3.5, .fin 3.15⟩,
  ⟨"B", .fin 3.0, .fin 3.15, .fin 2.85⟩,
  ⟨"B-", .fin 2.7, .fin 2.85, .fin 2.5⟩,
  ⟨"C+", .fin 2.3, .fin 2.5, .fin 2.15⟩,
  ⟨"C", .fin 2.0, .fin 2.15, .fin 1.85⟩,
  ⟨"C-", .fin 1.7, .fin 1.85, .fin 1.5⟩,
  ⟨"D+", .fin 1.3, .fin 1.5, .fin 1.15⟩,
  ⟨"D", .fin 1.0, .fin 1.15, .fin 0.85⟩,
  ⟨"D-", .fin 0.7, .fin 0.85, .fin 0.3⟩,
  ⟨"F", .fin 0.0, .fin 0.3, .fin (-1.0)⟩,
  ⟨"I", .nan, .ninf, .pinf⟩]

/-- The built-in percentage scale `PERCENTS`. -/
def PERCENTS : Scale := [
  ⟨"A+", .fin 100, .fin 200, .fin 97⟩,
  ⟨"A", .fin 95, .fin 97, .fin 94⟩,
  ⟨"A-", .fin 92, .fin 94, .fin 90⟩,
  ⟨"B+", .fin 88, .fin 90, .fin 87⟩,
  ⟨"B", .fin 85, .fin 87, .fin 84⟩,
  ⟨"B-", .fin 82, .fin 84, .fin 80⟩,
  ⟨"C+", .fin 78, .fin 80, .fin 77⟩,
  ⟨"C", .fin 75, .fin 77, .fin 74⟩,
  ⟨"C-", .fin 72, .fin 74, .fin 70⟩,
  ⟨"D+", .fin 68, .fin 70, .fin 67⟩,
  ⟨"D", .fin 65, .fin 67, .fin 64⟩,
  ⟨"D-", .fin 62, .fin 64, .fin 60⟩,
  ⟨"F", .fin 58, .fin 60, .fin 0⟩,
  ⟨"I", .nan, .ninf, .pinf⟩]

/-- Python `letter_grade == grade` where `grade` is a string and
    `letter_grade` is dynamically typed: true only for an equal string. -/
def gvalIsStr (g : GVal) (s : String) : Bool :=
  match g with
  | .vstr t => t == s
  | _ => false

/-- `letter_to_number`: first band whose label equals the letter grade,
    returning its point value; NaN for grades not in the scale. -/
def letter_to_number (letter_grade : GVal) (scale : Scale) : PyF :=
  match scale.find? (fun b => gvalIsStr letter_grade b.grade) with
  | some b => b.val
  | none => .nan

/-- `letter_to_points`: convert a letter grade to a 4.0-scale grade. -/
def letter_to_points (letter_grade : GVal) : PyF :=
  letter_to_number letter_grade POINTS

/-- `letter_to_percentage`: convert a letter grade to a percentage. -/
def letter_to_percentage (letter_grade : GVal) : PyF :=
  letter_to_number letter_grade PERCENTS

/-- Does `n` fall in band `b`, i.e. Python `mn <= n < mx`? -/
def bandMatches (b : Band) (n : PyF) : Bool :=
  b.mn.le n && n.lt b.mx

/-- Placeholder band used only to express Python's negative indexing
    totally; never returned. -/
def dummyBand : Band := ⟨"", .nan, .nan, .nan⟩

/-- `number_to_letter`: 'I' for NaN before any band scan; otherwise the
    label of the first band with `mn <= n < mx`; otherwise the
    `ValueError` carrying `n`, `scale[0][2]` and `scale[-2][3]`
    (an `IndexError` if the scale has fewer than two rows, exactly as
    the Python indexing would fail). -/
def number_to_letter (n : PyF) (scale : Scale) : Except PyErr String :=
  if n.isnan then .ok "I"
  else
    match scale.find? (fun b => bandMatches b n) with
    | some b => .ok b.grade
    | none =>
      match scale with
      | [] => .error .indexError
      | [_] => .error .indexError
      | b0 :: rest =>
        .error (.scaleRangeError n b0.mx
          (((b0 :: rest).getD ((b0 :: rest).length - 2) dummyBand).mn))

/-- `points_to_letter`: convert a 4.0-scale grade to a letter grade. -/
def points_to_letter (p : PyF) : Except PyErr String :=
  number_to_letter p POINTS

/-- `percentage_to_letter`: convert a percentage to a letter grade. -/
def percentage_to_letter (p : PyF) : Except PyErr String :=
  number_to_letter p PERCENTS

/-- `remove_none_and_nan`: filter out `None` and float NaN (strings and
    other values pass through, matching `type(v) is float`). -/
def remove_none_and_nan (values : List GVal) : List GVal :=
  values.filter (fun v =>
    match v with
    | .vnone => false
    | .vnum f => !f.isnan
    | .vstr _ => true)

/-- `letter_grade_min`: minimum of a list of letter grades, comparing
    their 4.0-scale point values and returning the original entry at
    the first index achieving the minimum. -/
def letter_grade_min (letter_grades : List GVal) : Except PyErr GVal := do
  let pts := letter_grades.map letter_to_points
  let mn ← pyfMin pts
  let i ← pyIndex pts mn
  match letter_grades.get? i with
  | some g => .ok g
  | none => .error .indexError

/-- `letter_grade_max`: maximum of a list of letter grades, comparing
    their 4.0-scale point values and returning the original entry at
    the first index achieving the maximum. -/
def letter_grade_max (letter_grades : List GVal) : Except PyErr GVal := do
  let pts := letter_grades.map letter_to_points
  let mx ← pyfMax pts
  let i ← pyIndex pts mx
  match letter_grades.get? i with
  | some g => .ok g
  | none => .error .indexError

/-- `unweighted_average`: NaN on an empty input (after the optional
    filter), otherwise `float(sum(values)) / len(values)`. -/
def unweighted_average (values : List GVal) (filter_nan : Bool := false) :
    Except PyErr PyF := do
  let values := if filter_nan then remove_none_and_nan values else values
  if values.isEmpty then .ok .nan
  else do
    let s ← pySumG values
    s.div (.fin values.length)

/-- `weighted_average`: `sum(value[i] * weight[i])`; NaN on an empty
    input; does not check or normalize the weights. A non-numeric value
    or weight raises `TypeError` as the Python multiplication would. -/
def weighted_average (values : List GVal) (weights : List GVal)
    (filter_nan : Bool := false) : Except PyErr PyF := do
  let values := if filter_nan then remove_none_and_nan values else values
  if values.isEmpty then .ok .nan
  else do
    let prods ← (values.zip weights).mapM (fun n =>
      match n.1, n.2 with
      | .vnum a, .vnum b => .ok (PyF.mul a b)
      | _, _ => .error (.typeError "unsupported operand type(s) for *"))
    .ok (pySum prods)

/-- `letter_grade_average`: 4.0-scale average of a list of letter
    grades. A `weights` value of `[]` models Python's falsy default
    `None` (`if weights:`). -/
def letter_grade_average (letter_grades : List GVal)
    (weights : List GVal := []) (filter_nan : Bool := false) :
    Except PyErr PyF :=
  let letter_grades :=
    if filter_nan then remove_none_and_nan letter_grades else letter_grades
  let point_grades := letter_grades.map (fun g => GVal.vnum (letter_to_points g))
  if weights.isEmpty then unweighted_average point_grades
  else weighted_average point_grades weights

/-- `points_to_weights`: every output NaN when the point values sum to
    a falsy value (exact zero), otherwise `float(p)/s` at each index. -/
def points_to_weights (point_values : List PyF) : Except PyErr (List PyF) :=
  let s := pySum point_values
  if !s.truthy then .ok (point_values.map (fun _ => PyF.nan))
  else point_values.mapM (fun p => p.div s)

/-- Render an optional string the way Python `%s` renders the value or
    `None`; used only inside error messages. -/
def showOptStr : Option String → String
  | none => "None"
  | some s => s

/-- `calculation_for_type`: dispatch a statistic on the declared grade
    type. Numeric types call `numeric_func` on the raw values; letter
    grades call `letter_func` when given and otherwise convert through
    `scale` first; any other type raises `ValueError`. The grade type
    is optional because it is read from a nullable column. -/
def calculation_for_type {α : Type} (grades : List GVal)
    (grade_type : Option String)
    (numeric_func : List GVal → Except PyErr α)
    (letter_func : Option (List GVal → Except PyErr α) := none)
    (scale : Scale := POINTS) (filter_nan : Bool := false) :
    Except PyErr α :=
  let grades := if filter_nan then remove_none_and_nan grades else grades
  if grade_type == some "points" || grade_type == some "4points" ||
      grade_type == some "percentage" then
    numeric_func grades
  else if grade_type == some "letter" then
    match letter_func with
    | some lf => lf grades
    | none =>
      numeric_func (grades.map (fun g => GVal.vnum (letter_to_number g scale)))
  else
    .error (.valueError ("Unknown grade type: " ++ showOptStr grade_type))

/-- `min_for_type`: minimum value in a list of grades. -/
def min_for_type (values : List GVal) (grade_type : Option String) :
    Except PyErr GVal :=
  calculation_for_type values grade_type py2min (some letter_grade_min)

/-- `max_for_type`: maximum value in a list of grades. -/
def max_for_type (values : List GVal) (grade_type : Option String) :
    Except PyErr GVal :=
  calculation_for_type values grade_type py2max (some letter_grade_max)

/-- `mean_for_type`: unweighted average of a list of grades. -/
def mean_for_type (values : List GVal) (grade_type : Option String)
    (filter_nan : Bool := false) : Except PyErr PyF :=
  calculation_for_type values grade_type
    (fun gs => unweighted_average gs)
    (some (fun gs => letter_grade_average gs))
    POINTS filter_nan

/-! ## The relational store

Tables are lists of rows ordered by rowid.  `INTEGER PRIMARY KEY`
columns are `ℕ`; a nullable foreign key stored as SQL NULL is `0`
(ids start at 1).  Query parameters follow the source's truthiness
convention: a `0` id or `""` string parameter adds no constraint
(`make_conjunction_clause` skips falsy values), and a falsy value
passed to an INSERT is stored as NULL (`make_values_clause` skips
falsy values). -/

/-- A row of the `students` table (fields used by the engine). -/
structure StudentRow where
  id : ℕ
  last_name : String
  first_name : String
  sid : String
deriving DecidableEq

/-- A row of the `course_memberships` table. -/
structure MemberRow where
  id : ℕ
  student_id : ℕ
  course_id : ℕ
deriving DecidableEq

/-- A row of the `assignments` table. -/
structure AssignmentRow where
  id : ℕ
  course_id : ℕ
  name : Option String
  description : Option String
  due_date : Option String
  grade_type : Option String
  weight : GVal
deriving DecidableEq

/-- A row of the `grades` table. -/
structure GradeRow where
  id : ℕ
  assignment_id : ℕ
  student_id : ℕ
  value : GVal
  timestamp : ℕ
deriving DecidableEq

/-- The grade database.  Only the ids of courses are modelled (their
    year/semester/number attributes feed the calculation-function name
    lookup, which is abstracted as an explicit function parameter).
    `clock` stands in for `datetime.now()` timestamps. -/
structure DB where
  courses : List ℕ
  students : List StudentRow
  memberships : List MemberRow
  assignments : List AssignmentRow
  grades : List GradeRow
  clock : ℕ
deriving DecidableEq

/-- A truthiness-guarded id constraint: parameter `0` (Python `None`
    or `0`) matches everything. -/
def matchN (param x : ℕ) : Bool := param == 0 || param == x

/-- A truthiness-guarded string constraint against a nullable column:
    parameter `""` matches everything; otherwise the column must be
    non-NULL and equal. -/
def matchS (param : String) (x : Option String) : Bool :=
  param == "" || x == some param

/-- Store a value the way `make_values_clause` does: falsy values are
    dropped from the INSERT and the column becomes NULL. -/
def storedVal (v : GVal) : GVal := if v.truthy then v else .vnone

/-- Store an optional string column: `""` (falsy) becomes NULL. -/
def optS (s : String) : Option String := if s == "" then none else some s

/-- SQLite's next rowid for the assignments table: one more than the
    largest existing rowid. -/
def nextAssignmentId (db : DB) : ℕ :=
  (db.assignments.foldl (fun m a => max m a.id) 0) + 1

/-- SQLite's next rowid for the grades table. -/
def nextGradeId (db : DB) : ℕ :=
  (db.grades.foldl (fun m g => max m g.id) 0) + 1

/-- `ensure_unique`: a singleton result set yields its first column
    (`rows[0][0]`, here the projection `first`); otherwise
    `NoRecordsFound` or `MultipleRecordsFound`. -/
def ensure_unique {α β : Type} (first : α → β) : List α → Except PyErr β
  | [] => .error .noRecordsFound
  | [r] => .ok (first r)
  | _ :: _ :: _ => .error .multipleRecordsFound

/-- A row of the `select_assignments` result set:
    `(assignment_id, course_id, assignment_name, due_date)`. -/
structure AssignmentSel where
  assignment_id : ℕ
  course_id : ℕ
  name : Option String
  due_date : Option String
deriving DecidableEq

/-- `db.select_assignments` (the year/semester parameters, unused by
    the engine, are omitted): assignments joined against courses, with
    truthiness-guarded id and name constraints. -/
def select_assignments (db : DB) (assignment_id course_id : ℕ)
    (name : String) : List AssignmentSel :=
  db.assignments.filterMap (fun a =>
    if db.courses.contains a.course_id && matchN assignment_id a.id &&
        matchN course_id a.course_id && matchS name a.name then
      some ⟨a.id, a.course_id, a.name, a.due_date⟩
    else none)

/-- A row of the `select_grades` result set: `(grade_id, student_id,
    course_id, assignment_id, assignment_name, grade_value)`. -/
structure GradeSel where
  grade_id : ℕ
  student_id : ℕ
  course_id : ℕ
  assignment_id : ℕ
  assignment_name : Option String
  value : GVal
deriving DecidableEq

/-- The row a single grade contributes to the `select_grades` join:
    present when its foreign keys resolve and the truthiness-guarded
    constraints on student, course and assignment hold. -/
def gradeJoinRow (db : DB) (student_id course_id assignment_id : ℕ)
    (g : GradeRow) : Option GradeSel :=
  match db.assignments.find? (fun a => a.id == g.assignment_id),
      db.students.find? (fun s => s.id == g.student_id) with
  | some a, some s =>
    if matchN student_id s.id && matchN course_id a.course_id &&
        matchN assignment_id a.id then
      some ⟨g.id, s.id, a.course_id, a.id, a.name, g.value⟩
    else none
  | _, _ => none

/-- `db.select_grades`: grades joined against assignments and
    students. -/
def select_grades (db : DB) (student_id course_id assignment_id : ℕ) :
    List GradeSel :=
  db.grades.filterMap (gradeJoinRow db student_id course_id assignment_id)

/-- Whether a grade with the given foreign keys joins into a
    `select_grades` result under the given constraints; this decision
    depends only on the keys, not on the grade's value or timestamp. -/
def gradeJoinTest (db : DB) (student_id course_id assignment_id
    gaid gsid : ℕ) : Bool :=
  match db.assignments.find? (fun a => a.id == gaid),
      db.students.find? (fun s => s.id == gsid) with
  | some a, some s =>
    matchN student_id s.id && matchN course_id a.course_id &&
      matchN assignment_id a.id
  | _, _ => false

/-- `db.select_students` restricted to the course-membership join used
    by the engine (`course_id` as only constraint; a falsy course id
    selects the whole table, as in the source's no-join branch). -/
def select_students (db : DB) (course_id : ℕ) : List StudentRow :=
  if course_id == 0 then db.students
  else
    db.memberships.filterMap (fun m =>
      if m.course_id == course_id && db.courses.contains m.course_id then
        db.students.find? (fun s => s.id == m.student_id)
      else none)

/-- `db.create_assignment`: INSERT with falsy fields stored as NULL;
    returns the fresh rowid and the new store. -/
def create_assignment (db : DB) (course_id : ℕ) (name description due_date
    grade_type : String) (weight : GVal) : ℕ × DB :=
  let aid := nextAssignmentId db
  (aid, { db with assignments := db.assignments ++
    [⟨aid, course_id, optS name, optS description, optS due_date,
      optS grade_type, storedVal weight⟩] })

/-- `db.create_or_update_grade`: `INSERT OR REPLACE INTO grades`.
    Without a (truthy) `grade_id` the row gets a fresh rowid; with one,
    the row of that rowid is replaced in place when it exists and
    inserted otherwise.  Returns `last_insert_rowid()` and the new
    store. -/
def create_or_update_grade (db : DB) (grade_id assignment_id student_id : ℕ)
    (value : GVal) : ℕ × DB :=
  let ts := db.clock
  let row : ℕ → GradeRow := fun i =>
    ⟨i, assignment_id, student_id, storedVal value, ts⟩
  if grade_id == 0 then
    let gid := nextGradeId db
    (gid, { db with grades := db.grades ++ [row gid], clock := db.clock + 1 })
  else if db.grades.any (fun g => g.id == grade_id) then
    (grade_id, { db with
      grades := db.grades.map (fun g => if g.id == grade_id then row grade_id else g),
      clock := db.clock + 1 })
  else
    (grade_id, { db with
      grades := db.grades ++ [row grade_id],
      clock := db.clock + 1 })

/-- Modelled from the spec: `db.update_grade` is called by
    `save_calculated_grade` but absent from the source's `db.py`; per
    the storage contract, `updateGrade(grade_id, value)` updates that
    grade's value in place. -/
def update_grade (db : DB) (grade_id : ℕ) (value : GVal) : DB :=
  { db with grades := db.grades.map (fun g =>
      if g.id == grade_id then { g with value := value } else g) }

/-- A GradeRecord as produced by the storage collaborator for a course:
    `{grade_id, assignment_id, student_id, assignment_name, grade_type,
    weight, value}`. -/
structure GRecord where
  grade_id : Option ℕ
  assignment_id : ℕ
  student_id : ℕ
  assignment_name : Option String
  grade_type : Option String
  weight : GVal
  value : GVal
deriving DecidableEq

/-- Modelled from the spec: `db.select_grades_for_course_members` is
    called by the engine and the report but absent from the source's
    `db.py`.  Per the storage contract it returns one GradeRecord per
    grade of each course member on each course assignment, and a
    `grade_id = null` row when a member has no grade for an assignment
    (used to detect missing grades). -/
def select_grades_for_course_members (db : DB) (course_id : ℕ) :
    List GRecord :=
  (select_students db course_id).flatMap (fun s =>
    (db.assignments.filter (fun a => a.course_id == course_id)).flatMap
      (fun a =>
        match db.grades.filter
            (fun g => g.student_id == s.id && g.assignment_id == a.id) with
        | [] => [⟨none, a.id, s.id, a.name, a.grade_type, a.weight, .vnone⟩]
        | gs => gs.map (fun g =>
            ⟨some g.id, a.id, s.id, a.name, a.grade_type, a.weight, g.value⟩)))

/-! ## The calculation invocation engine (`ui.calculate_grades`) -/

/-- The keyword arguments of one call to `save_calculated_grade`; a
    proposal produced by the user calculation function.  Defaults are
    the source's; `0` ids model the falsy `None` defaults, and the
    `""` grade type models its `None` default. -/
structure Proposal where
  name : String := ""
  value : GVal := .vstr ""
  grade_id : ℕ := 0
  assignment_id : ℕ := 0
  description : String := "(Assignment for calculated grade)"
  due_date : String := "today"
  grade_type : String := ""
  weight : GVal := .vstr "CALC"
deriving DecidableEq

/-- `save_calculated_grade`: validate the proposal, resolve the
    assignment (update directly by grade id; reuse a uniquely named
    assignment; create one on `NoRecordsFound`, letting
    `MultipleRecordsFound` propagate), then look up the student's
    existing grade for the resolved assignment — a unique hit becomes
    the `grade_id` of a replacing write, `NoRecordsFound` leads to a
    fresh insert, and `MultipleRecordsFound` propagates. -/
def save_calculated_grade (db : DB) (course_id student_id : ℕ)
    (p : Proposal) : Except PyErr (ℕ × DB) :=
  if p.name == "" && !(p.assignment_id != 0 || p.grade_id != 0) then
    .error (.valueError "No assignment name given for calculated grade.")
  else if p.value == .vnone then
    .error (.valueError "No value given for calculated grade.")
  else if p.grade_id != 0 then
    .ok (p.grade_id, update_grade db p.grade_id p.value)
  else
    let resolved : Except PyErr (ℕ × DB) :=
      if p.assignment_id != 0 then .ok (p.assignment_id, db)
      else
        match ensure_unique (fun r => r.assignment_id)
            (select_assignments db 0 course_id p.name) with
        | .ok aid => .ok (aid, db)
        | .error .noRecordsFound =>
          .ok (create_assignment db course_id p.name p.description
            p.due_date p.grade_type p.weight)
        | .error e => .error e
    match resolved with
    | .error e => .error e
    | .ok (aid, db1) =>
      match ensure_unique (fun r => r.grade_id)
          (select_grades db1 student_id 0 aid) with
      | .ok gid => .ok (create_or_update_grade db1 gid aid student_id p.value)
      | .error .noRecordsFound =>
        .ok (create_or_update_grade db1 0 aid student_id p.value)
      | .error e => .error e

/-- The grade rows gathered for one student from the run's snapshot of
    the course grade set: that student's rows whose weight is not the
    `'CALC'` sentinel. -/
def entered_for (all_grades : List GRecord) (student_id : ℕ) :
    List GRecord :=
  all_grades.filter (fun r =>
    r.student_id == student_id && !(r.weight == .vstr "CALC"))

/-- A user calculation function: the filtered grade records in, and
    either a list of proposals (the dict output form is transposed to
    `{name, value}` proposals before persistence) or any raised
    exception out. -/
abbrev CalcFunc := List GRecord → Except PyErr (List Proposal)

/-- Persist one student's proposals in order; the first persistence
    error aborts (there is no try/except around the save loop). -/
def saveProps (course_id student_id : ℕ) :
    List Proposal → DB → Except PyErr DB
  | [], db => .ok db
  | p :: ps, db =>
    match save_calculated_grade db course_id student_id p with
    | .ok (_, db1) => saveProps course_id student_id ps db1
    | .error e => .error e

/-- The per-student loop of `calculate_grades`: each student's entered
    grades are filtered from the snapshot `all_grades`; an exception
    from the user function only records a skip (the student's id) and
    continues, while a persistence error propagates and aborts the
    run.  Returns the final store and the skipped students. -/
def runStudents (f : CalcFunc) (course_id : ℕ) (all_grades : List GRecord) :
    List StudentRow → DB → Except PyErr (DB × List ℕ)
  | [], db => .ok (db, [])
  | st :: rest, db =>
    match f (entered_for all_grades st.id) with
    | .error _ =>
      match runStudents f course_id all_grades rest db with
      | .ok (db1, sk) => .ok (db1, st.id :: sk)
      | .error e => .error e
    | .ok props =>
      match saveProps course_id st.id props db with
      | .ok db1 => runStudents f course_id all_grades rest db1
      | .error e => .error e

/-- `calculate_grades` for a resolved user function `f`: select the
    course's students, snapshot the course grade set once, and run the
    per-student loop. -/
def calculate_grades (f : CalcFunc) (course_id : ℕ) (db : DB) :
    Except PyErr (DB × List ℕ) :=
  runStudents f course_id (select_grades_for_course_members db course_id)
    (select_students db course_id) db

/-! ## The report statistics builder (`reports.GradeReport`) -/

/-- `unpack_entered_grades`: the four co-indexed lists
    `(values, weights, types, names)` of a sequence of grade rows. -/
def unpack_entered_grades (rows : List GRecord) :
    List GVal × List GVal × List (Option String) × List (Option String) :=
  (rows.map (fun r => r.value), rows.map (fun r => r.weight),
   rows.map (fun r => r.grade_type), rows.map (fun r => r.assignment_name))

/-- `GradeReport.calculate_stats`: minimum, maximum, mean, and the mean
    converted to a letter grade.  `types[0]` raises `IndexError` on an
    empty row set.  A NaN mean becomes `None`; the letter conversion is
    guarded by `if avg:`, so it is skipped for a `None` or exactly-zero
    mean, applied through the 4.0-point scale for the `letter` and
    `4points` types and through the percentage scale for `percentage`. -/
def calculate_stats (grades : List GRecord) :
    Except PyErr (GVal × GVal × Option PyF × Option String) := do
  let (values, _, types, _) := unpack_entered_grades grades
  match types with
  | [] => .error .indexError
  | grade_type :: _ =>
    let mn ← min_for_type values grade_type
    let mx ← max_for_type values grade_type
    let avg ← mean_for_type values grade_type true
    let avgOpt : Option PyF := if avg.isnan then none else some avg
    match avgOpt with
    | none => .ok (mn, mx, none, none)
    | some av =>
      if av.truthy then
        if grade_type == some "4points" || grade_type == some "letter" then do
          let l ← points_to_letter av
          .ok (mn, mx, some av, some l)
        else if grade_type == some "percentage" then do
          let l ← percentage_to_letter av
          .ok (mn, mx, some av, some l)
        else .ok (mn, mx, some av, none)
      else .ok (mn, mx, some av, none)

/-- Modelled from the spec: `ch.freqs_for_letters` is called by the
    histogram but absent from the source's `calculator_helpers.py`; per
    the spec it counts, for each letter bin, the occurrences of that
    label among the raw values. -/
def freqs_for_letters (values : List GVal) (letter : String) : ℕ :=
  values.countP (fun v => gvalIsStr v letter)

/-- Modelled from the spec: `ch.freqs_for_numbers` is called by the
    histogram but absent from the source's `calculator_helpers.py`; per
    the spec it counts, for each `(upper, lower)` band bin, the raw
    values falling in that band. -/
def freqs_for_numbers (values : List GVal) (bin : PyF × PyF) : ℕ :=
  values.countP (fun v =>
    match v with
    | .vnum f => bin.2.le f && f.lt bin.1
    | _ => false)

/-- Left-pad a string with spaces to the given width. -/
def padLeft (s : String) (w : ℕ) : String :=
  String.mk (List.replicate (w - s.length) ' ') ++ s

/-- Right-pad a string with spaces to the given width. -/
def padRight (s : String) (w : ℕ) : String :=
  s ++ String.mk (List.replicate (w - s.length) ' ')

/-- Render a finite value with (simplified) two-decimal formatting for
    the numeric histogram bin labels. -/
def fmt2 : PyF → String
  | .nan => "nan"
  | .pinf => "inf"
  | .ninf => "-inf"
  | .fin q =>
    let cents : ℤ := ⌊q * 100⌋
    let sign := if cents < 0 then "-" else ""
    sign ++ toString (cents.natAbs / 100) ++ "." ++
      (let c := cents.natAbs % 100
       (if c < 10 then "0" else "") ++ toString c)

/-- One line of the text histogram: the padded bin label, the
    parenthesized frequency when nonzero, and the bars. -/
def histLine (label : String) (freq : ℕ) : String :=
  padLeft label 10 ++ ": " ++
    padRight (if freq == 0 then "" else "(" ++ toString freq ++ ")") 5 ++
    " " ++ String.mk (List.replicate freq '|') ++ "\n"

/-- `GradeReport.histogram`: letter-typed assignments use one bin per
    `POINTS` label; `4points` and `percent` use the `(upper, lower)`
    band bins of their scale without the terminal sentinel; any other
    grade type (including `percentage`!) raises `ValueError`, and an
    empty row set raises `IndexError` at `types[0]`. -/
def histogram (grades : List GRecord) : Except PyErr String := do
  let (values, _, types, _) := unpack_entered_grades grades
  match types with
  | [] => .error .indexError
  | t0 :: _ =>
    if t0 == some "letter" then
      let bins := POINTS.map (fun p => p.grade)
      .ok (String.join (bins.map (fun b =>
        histLine b (freqs_for_letters values b))))
    else if t0 == some "4points" || t0 == some "percent" then
      let scale := if t0 == some "4points" then POINTS else PERCENTS
      let bins := (scale.map (fun p => (p.mx, p.mn))).dropLast
      .ok (String.join (bins.map (fun b =>
        histLine (fmt2 b.2 ++ " to " ++ fmt2 b.1) (freqs_for_numbers values b))))
    else
      .error (.valueError ("Can't calculate histogram bins for assignment type "
        ++ showOptStr t0))

/-- One per-assignment record of a grade report: the computed
    statistics, or an `unavailable` record carrying `str(e)` when the
    statistics failed with a `ValueError` or `TypeError`. -/
inductive StatRecord where
  | available (assignment_id : ℕ) (assignment_name : Option String)
      (grade_type : Option String) (weight : GVal) (mn mx : GVal)
      (mean : Option PyF) (mean_as_letter : Option String) (hist : String)
      (missing_students : List ℕ) : StatRecord
  | unavailable (assignment_id : ℕ) (assignment_name : Option String)
      (reason : PyErr) (weight : GVal) (missing_students : List ℕ) :
      StatRecord
deriving DecidableEq

/-- The body of the `try` block of `GradeReport.run` for one
    assignment's grade rows: the statistics and then the histogram. -/
def statsAndHist (grades : List GRecord) :
    Except PyErr ((GVal × GVal × Option PyF × Option String) × String) := do
  let s ← calculate_stats grades
  let h ← histogram grades
  pure (s, h)

/-- The per-assignment grade rows of the report: the course grade set
    restricted to one assignment. -/
def gradesOf (all_grades : List GRecord) (assignment_id : ℕ) :
    List GRecord :=
  all_grades.filter (fun g => g.assignment_id == assignment_id)

/-- The students missing a grade for an assignment: the
    `grade_id = null` rows. -/
def missingOf (grades : List GRecord) : List ℕ :=
  (grades.filter (fun g => g.grade_id == none)).map (fun g => g.student_id)

/-- The per-assignment loop of `GradeReport.run`: statistics and
    histogram are computed inside a `try` that catches exactly
    `ValueError` and `TypeError` (emitting an `unavailable` record and
    continuing); any other exception propagates and aborts the report. -/
def report_assignments (all_grades : List GRecord) :
    List AssignmentRow → Except PyErr (List StatRecord)
  | [] => .ok []
  | a :: rest =>
    let grades := gradesOf all_grades a.id
    let missing := missingOf grades
    match statsAndHist grades with
    | .ok ((mn, mx, avg, lavg), h) =>
      match report_assignments all_grades rest with
      | .ok tl => .ok (.available a.id a.name a.grade_type a.weight mn mx
          avg lavg h missing :: tl)
      | .error e => .error e
    | .error e =>
      if e.isValueError || e.isTypeError then
        match report_assignments all_grades rest with
        | .ok tl => .ok (.unavailable a.id a.name e a.weight missing :: tl)
        | .error e1 => .error e1
      else .error e

/-- `GradeReport.run`: assignment rows are read through the storage
    contract (the source's four-column `select_assignments` is
    narrower than the rows the report reads, so the full rows are
    modelled from the spec as the course's assignment records), the
    course grade set is fetched once, and each assignment is
    summarized. -/
def report_run (db : DB) (course_id : ℕ) : Except PyErr (List StatRecord) :=
  report_assignments (select_grades_for_course_members db course_id)
    (db.assignments.filter (fun a => a.course_id == course_id))

/-! ## Invariants for the recalculation-idempotence development -/

/-- A proposal in the normalized name-based form produced for the
    mapping output of a user calculation function: no explicit grade or
    assignment id. -/
def nameBasedProp (p : Proposal) : Prop :=
  p.grade_id = 0 ∧ p.assignment_id = 0

/-- A user calculation function that only emits name-based proposals
    (the normalized `{name: k, value: v}` form). -/
def NameBased (f : CalcFunc) : Prop :=
  ∀ gs props, f gs = .ok props → ∀ p ∈ props, nameBasedProp p

/-- The course has exactly one assignment of the given name, with id
    `aid`. -/
def uniqA (db : DB) (course_id : ℕ) (name : String) (aid : ℕ) : Prop :=
  (select_assignments db 0 course_id name).map
    (fun r => r.assignment_id) = [aid]

/-- The student has exactly one grade for the assignment. -/
def uniqG (db : DB) (student_id assignment_id : ℕ) : Prop :=
  (select_grades db student_id 0 assignment_id).length = 1

/-- The grades-table key of a row: its rowid and foreign keys
    (everything but the value and timestamp). -/
def gkey (g : GradeRow) : ℕ × ℕ × ℕ := (g.id, g.assignment_id, g.student_id)

/-- The largest assignment rowid in use. -/
def maxAssignmentId (db : DB) : ℕ :=
  db.assignments.foldl (fun m a => max m a.id) 0

/-- Well-formedness of a store, as the SQLite schema guarantees it:
    rowids are unique primary keys starting at 1, student ids are
    positive, and no grade references an assignment rowid beyond the
    largest one in use. -/
def WF (db : DB) : Prop :=
  (db.grades.map (fun g => g.id)).Nodup ∧
  (db.assignments.map (fun a => a.id)).Nodup ∧
  (∀ g ∈ db.grades, 1 ≤ g.id) ∧
  (∀ a ∈ db.assignments, 1 ≤ a.id) ∧
  (∀ s ∈ db.students, 1 ≤ s.id) ∧
  (∀ g ∈ db.grades, g.assignment_id ≤ maxAssignmentId db)

/-- Two stores that agree on everything except grade values and
    timestamps: the relation a run of pure grade updates preserves. -/
def UpdEq (db db1 : DB) : Prop :=
  db1.courses = db.courses ∧ db1.students = db.students ∧
  db1.memberships = db.memberships ∧ db1.assignments = db.assignments ∧
  db1.grades.map gkey = db.grades.map gkey

/-- What holds of a store after a successful save has been replayed on
    it and after every later successful name-based save: the
    non-grade tables are unchanged, and named-assignment uniqueness
    and per-student grade uniqueness are never destroyed. -/
def Pres (course_id : ℕ) (db db1 : DB) : Prop :=
  db1.courses = db.courses ∧ db1.students = db.students ∧
  db1.memberships = db.memberships ∧
  (∀ nm aid, nm ≠ "" → uniqA db course_id nm aid → uniqA db1 course_id nm aid) ∧
  (∀ sid aid, 1 ≤ sid → 1 ≤ aid → uniqG db sid aid → uniqG db1 sid aid) ∧
  (WF db → WF db1)

/-! ## Concrete stores and functions used by the witnesses -/

/-- Witness store for the idempotence claim: one course, one member,
    one entered assignment with a grade. -/
def wdb1 : DB :=
  { courses := [1],
    students := [⟨1, "Doe", "Jo", "123"⟩],
    memberships := [⟨1, 1, 1⟩],
    assignments := [⟨1, 1, some "hw", none, none, some "4points",
      .vnum (.fin 1)⟩],
    grades := [⟨1, 1, 1, .vnum (.fin 3), 0⟩],
    clock := 5 }

/-- Witness calculation function: one calculated grade named `final`. -/
def wf1 : CalcFunc := fun _ => .ok [{ name := "final", value := .vnum (.fin 2) }]

/-- The store after the first witness recalculation run. -/
def wdb1a : DB :=
  match calculate_grades wf1 1 wdb1 with
  | .ok (d, _) => d
  | .error _ => wdb1

/-- The store after the second witness recalculation run. -/
def wdb1b : DB :=
  match calculate_grades wf1 1 wdb1a with
  | .ok (d, _) => d
  | .error _ => wdb1a

/-- Witness store for the failure-isolation claim: two members, one
    entered assignment, each student with a grade. -/
def wdb2 : DB :=
  { courses := [1],
    students := [⟨1, "A", "Ann", "11"⟩, ⟨2, "B", "Ben", "22"⟩],
    memberships := [⟨1, 1, 1⟩, ⟨2, 2, 1⟩],
    assignments := [⟨1, 1, some "hw", none, none, some "4points",
      .vnum (.fin 1)⟩],
    grades := [⟨1, 1, 1, .vnum (.fin 3), 0⟩, ⟨2, 1, 2, .vnum (.fin 4), 0⟩],
    clock := 3 }

/-- Witness calculation function that raises for the first student's
    rows and proposes a calculated grade for anyone else. -/
def wf2 : CalcFunc := fun gs =>
  match gs with
  | [] => .error (.valueError "no rows")
  | r :: _ =>
    if r.student_id == 1 then .error (.valueError "bad student")
    else .ok [{ name := "final", value := .vnum (.fin 1) }]

/-- Witness store for the lookup-error claim: two assignments share
    the name `total`, so resolving a proposal of that name fails with
    `MultipleRecordsFound`. -/
def wdb8 : DB :=
  { courses := [1],
    students := [⟨1, "A", "Ann", "11"⟩, ⟨2, "B", "Ben", "22"⟩],
    memberships := [⟨1, 1, 1⟩, ⟨2, 2, 1⟩],
    assignments := [⟨1, 1, some "total", none, none, none, .vnum (.fin 1)⟩,
      ⟨2, 1, some "total", none, none, none, .vnum (.fin 1)⟩],
    grades := [],
    clock := 0 }

/-- Witness calculation function proposing a grade named `total`. -/
def wf8 : CalcFunc := fun _ =>
  .ok [{ name := "total", value := .vnum (.fin 1) }]

/-- Witness store for the entered-grades claim (one member, one
    entered assignment with a grade, one calculated assignment with a
    grade carrying the CALC sentinel weight). -/
def wdb6 : DB :=
  { courses := [1],
    students := [⟨1, "Doe", "Jo", "123"⟩],
    memberships := [⟨1, 1, 1⟩],
    assignments := [⟨1, 1, some "hw", none, none, some "4points",
      .vnum (.fin 1)⟩,
      ⟨2, 1, some "final", none, none, none, .vstr "CALC"⟩],
    grades := [⟨1, 1, 1, .vnum (.fin 3), 0⟩, ⟨2, 2, 1, .vnum (.fin 3), 1⟩],
    clock := 5 }

/-- The entered (non-CALC) grade record of `wdb6`'s student. -/
def wrec6 : GRecord :=
  ⟨some 1, 1, 1, some "hw", some "4points", .vnum (.fin 1), .vnum (.fin 3)⟩

/-- A pair of witness calculation functions that differ somewhere but
    agree on every entered-grade list the run passes them. -/
def wf6a : CalcFunc := fun _ => .ok []

/-- See `wf6a`; differs from it only on lists of length 999. -/
def wf6b : CalcFunc := fun gs =>
  if gs.length == 999 then .error .indexError else .ok []

/-- Witness store for the report claims: a course with assignments but
    no members, so every assignment has an empty grade-row set. -/
def wdb9 : DB :=
  { courses := [1],
    students := [],
    memberships := [],
    assignments := [⟨1, 1, some "a1", none, none, some "letter",
      .vnum (.fin 1)⟩,
      ⟨2, 1, some "a2", none, none, some "letter", .vnum (.fin 1)⟩],
    grades := [],
    clock := 0 }

/-- Witness store for the amended report claim: the first assignment
    has a NULL grade type (its statistics fail with `ValueError`), the
    second is a well-typed letter assignment. -/
def wdb9b : DB :=
  { courses := [1],
    students := [⟨1, "A", "Ann", "11"⟩],
    memberships := [⟨1, 1, 1⟩],
    assignments := [⟨1, 1, some "a1", none, none, none, .vnum (.fin 1)⟩,
      ⟨2, 1, some "a2", none, none, some "letter", .vnum (.fin 1)⟩],
    grades := [⟨1, 1, 1, .vnum (.fin 3), 0⟩, ⟨2, 2, 1, .vstr "B", 0⟩],
    clock := 0 }

/-- Witness grade rows for the statistics claim: two letter grades of
    `F`, whose 4.0-scale mean is exactly zero. -/
def wrows10 : List GRecord :=
  [⟨some 1, 1, 1, some "a", some "letter", .vnum (.fin 1), .vstr "F"⟩,
   ⟨some 2, 1, 2, some "a", some "letter", .vnum (.fin 1), .vstr "F"⟩]

/-! # Theorems -/

/-- If an element at index `i` satisfies `p` and no earlier element
    does, then `find?` returns exactly that element. -/
theorem find?_eq_get_of_first {α : Type} (p : α → Bool) :
    ∀ (l : List α) (i : ℕ) (hi : i < l.length),
      p (l.get ⟨i, hi⟩) = true →
      (∀ j (hj : j < l.length), j < i → p (l.get ⟨j, hj⟩) = false) →
      l.find? p = some (l.get ⟨i, hi⟩) := by
  intro l
  induction l with
  | nil => intro i hi; exact absurd hi (by simp)
  | cons x xs ih =>
    intro i hi hp hfirst
    cases i with
    | zero => simp only [List.get] at hp ⊢; simp [List.find?_cons, hp]
    | succ i =>
      have hx : p x = false := hfirst 0 (by simp) (Nat.succ_pos i)
      have hi1 : i < xs.length := Nat.lt_of_succ_lt_succ hi
      have := ih i hi1 hp (fun j hj hji =>
        hfirst (j + 1) (Nat.succ_lt_succ hj) (Nat.succ_lt_succ hji))
      simpa [List.find?, hx] using this

/-- C3 (counterexample): contrary to the claim,
    `min_for_type(["B","A","C"], "letter")` does not return `"A"` and
    `max_for_type(["B","A","C"], "letter")` does not return `"C"`. -/
theorem min_max_for_type_letter_claim_false :
    min_for_type [.vstr "B", .vstr "A", .vstr "C"] (some "letter") ≠
      .ok (.vstr "A") ∧
    max_for_type [.vstr "B", .vstr "A", .vstr "C"] (some "letter") ≠
      .ok (.vstr "C") := by
  with_unfolding_all decide

/-- C3 (as amended): `min_for_type(["B","A","C"], "letter")` returns
    `"C"` and `max_for_type(["B","A","C"], "letter")` returns `"A"`:
    letter grades are compared by their 4.0-scale point values
    (`C = 2.0 < B = 3.0 < A = 4.0`) and the original letter label of
    the extremal entry is returned. -/
theorem min_max_for_type_letter_values :
    min_for_type [.vstr "B", .vstr "A", .vstr "C"] (some "letter") =
      .ok (.vstr "C") ∧
    max_for_type [.vstr "B", .vstr "A", .vstr "C"] (some "letter") =
      .ok (.vstr "A") := by
  with_unfolding_all decide

/-- C4: `number_to_letter` returns the Incomplete label `'I'` for NaN
    input before any band scan and for every scale; for non-NaN input
    it returns the label of the first band (in declared order) with
    `inclusive_lower_bound <= n < exclusive_upper_bound`; and it fails,
    with the error carrying the value and the scale's overall bounds
    (`scale[0][2]` and `scale[-2][3]`), exactly when the input is not
    NaN and no band matches. -/
theorem number_to_letter_cases (scale : Scale) (n : PyF) :
    (n.isnan = true → number_to_letter n scale = .ok "I") ∧
    (∀ i, (hi : i < scale.length) → n.isnan = false →
      bandMatches (scale.get ⟨i, hi⟩) n = true →
      (∀ j (hj : j < scale.length), j < i →
        bandMatches (scale.get ⟨j, hj⟩) n = false) →
      number_to_letter n scale = .ok (scale.get ⟨i, hi⟩).grade) ∧
    (2 ≤ scale.length → n.isnan = false →
      (∀ b ∈ scale, bandMatches b n = false) →
      number_to_letter n scale = .error (.scaleRangeError n
        (scale.headD dummyBand).mx
        (scale.getD (scale.length - 2) dummyBand).mn)) ∧
    (2 ≤ scale.length → ∀ e, number_to_letter n scale = .error e →
      n.isnan = false ∧ (∀ b ∈ scale, bandMatches b n = false) ∧
      e = .scaleRangeError n (scale.headD dummyBand).mx
        (scale.getD (scale.length - 2) dummyBand).mn) := by
  refine ⟨?_, ?_, ?_, ?_⟩
  · intro h; simp [number_to_letter, h]
  · intro i hi hnan hmatch hfirst
    have hfind := find?_eq_get_of_first (fun b => bandMatches b n) scale i hi
      hmatch hfirst
    simp [number_to_letter, hnan, hfind]
  · intro hlen hnan hnone
    have hfind : scale.find? (fun b => bandMatches b n) = none := by
      rw [List.find?_eq_none]; intro b hb; simp [hnone b hb]
    match scale, hlen with
    | b0 :: b1 :: rest, _ =>
      simp only [number_to_letter, hnan, Bool.false_eq_true, if_false,
        hfind]
      rfl
  · intro hlen e he
    have hnan : n.isnan = false := by
      by_contra hn
      simp only [Bool.not_eq_false] at hn
      simp [number_to_letter, hn] at he
    refine ⟨hnan, ?_⟩
    have hfind : scale.find? (fun b => bandMatches b n) = none := by
      cases hf : scale.find? (fun b => bandMatches b n) with
      | none => rfl
      | some b => simp [number_to_letter, hnan, hf] at he
    have hnone : ∀ b ∈ scale, bandMatches b n = false := by
      intro b hb
      have := List.find?_eq_none.mp hfind b hb
      simpa using this
    refine ⟨hnone, ?_⟩
    match scale, hlen with
    | b0 :: b1 :: rest, _ =>
      simp only [number_to_letter, hnan, Bool.false_eq_true, if_false,
        hfind] at he
      cases he
      rfl

/-- C4 (witness): concrete instances of the three behaviours on the
    built-in scales: NaN maps to `'I'` on the percentage scale, `3.0`
    maps to `'B'` on the 4.0-point scale as the first (and only)
    matching band, and `10.0` fails with the error carrying the value
    and the 4.0-point scale's bounds `5.0` and `-1.0`. -/
theorem number_to_letter_cases_witness :
    number_to_letter .nan PERCENTS = .ok "I" ∧
    number_to_letter (.fin 3) POINTS = .ok "B" ∧
    number_to_letter (.fin 10) POINTS =
      .error (.scaleRangeError (.fin 10) (.fin 5.0) (.fin (-1.0))) := by
  refine ⟨(number_to_letter_cases PERCENTS .nan).1 rfl, ?_, ?_⟩
  · exact (number_to_letter_cases POINTS (.fin 3)).2.1 4 (by decide) rfl
      (by with_unfolding_all decide) (by with_unfolding_all decide)
  · exact (number_to_letter_cases POINTS (.fin 10)).2.2.1 (by decide) rfl
      (by with_unfolding_all decide)

/-- C5: for every label of the built-in 4.0-point and percentage
    scales (including the Incomplete label `'I'`, whose NaN point value
    maps back through the NaN branch), converting the label to a
    number and back yields the label. -/
theorem scale_label_round_trip :
    (∀ b ∈ POINTS,
      number_to_letter (letter_to_number (.vstr b.grade) POINTS) POINTS =
        .ok b.grade) ∧
    (∀ b ∈ PERCENTS,
      number_to_letter (letter_to_number (.vstr b.grade) PERCENTS) PERCENTS =
        .ok b.grade) := by
  with_unfolding_all decide

/-- C5 (witness): the round trip at the label `"A"` of the 4.0-point
    scale and at the Incomplete label `"I"` of the percentage scale. -/
theorem scale_label_round_trip_witness :
    number_to_letter (letter_to_number (.vstr "A") POINTS) POINTS =
      .ok "A" ∧
    number_to_letter (letter_to_number (.vstr "I") PERCENTS) PERCENTS =
      .ok "I" :=
  ⟨scale_label_round_trip.1 ⟨"A", .fin 4.0, .fin 4.2, .fin 3.85⟩
      (by with_unfolding_all decide),
   scale_label_round_trip.2 ⟨"I", .nan, .ninf, .pinf⟩
      (by with_unfolding_all decide)⟩

/-- Division by anything other than an exact float zero succeeds. -/
theorem div_ok_of_ne_zero (a s : PyF) (h : s ≠ .fin 0) :
    ∃ c, a.div s = .ok c := by
  cases s with
  | nan => cases a <;> exact ⟨_, rfl⟩
  | pinf => cases a <;> exact ⟨_, rfl⟩
  | ninf => cases a <;> exact ⟨_, rfl⟩
  | fin q =>
    have hq : ¬q = 0 := fun h0 => h (by rw [h0])
    cases a with
    | nan => exact ⟨.nan, by simp [PyF.div, hq]⟩
    | pinf => exact ⟨if 0 < q then .pinf else .ninf, by simp [PyF.div, hq]⟩
    | ninf => exact ⟨if 0 < q then .ninf else .pinf, by simp [PyF.div, hq]⟩
    | fin p => exact ⟨.fin (p / q), by simp [PyF.div, hq]⟩

/-- Mapping a division by a nonzero denominator over a list succeeds
    pointwise. -/
theorem mapM_div_ok (s : PyF) (h : s ≠ .fin 0) :
    ∀ l : List PyF, ∃ ws, l.mapM (fun p => p.div s) = .ok ws ∧
      ws.length = l.length ∧
      ∀ i, (hi : i < l.length) → (hw : i < ws.length) →
        (l.get ⟨i, hi⟩).div s = .ok (ws.get ⟨i, hw⟩) := by
  intro l
  induction l with
  | nil => exact ⟨[], rfl, rfl, by intro i hi; exact absurd hi (by simp)⟩
  | cons x xs ih =>
    obtain ⟨ws, hws, hlen, hpt⟩ := ih
    obtain ⟨c, hc⟩ := div_ok_of_ne_zero x s h
    refine ⟨c :: ws, ?_, by simp [hlen], ?_⟩
    · rw [List.mapM_cons, hc, hws]; rfl
    · intro i hi hw
      cases i with
      | zero => simpa using hc
      | succ i => exact hpt i (by simpa using hi) (by simpa using hw)

/-- C7: degenerate numeric inputs produce NaN rather than errors:
    `unweighted_average` returns NaN (raising nothing and dividing by
    nothing) whenever its input is empty after the optional filtering,
    and `points_to_weights` returns a NaN for every input position when
    the points sum to zero and `point[i] / sum(points)` at every index
    otherwise. -/
theorem degenerate_numeric_inputs (values : List GVal) (filter_nan : Bool)
    (points : List PyF) :
    ((if filter_nan then remove_none_and_nan values else values) = [] →
      unweighted_average values filter_nan = .ok .nan) ∧
    (pySum points = .fin 0 →
      points_to_weights points = .ok (points.map (fun _ => PyF.nan)) ∧
      (points.map (fun _ => PyF.nan)).length = points.length) ∧
    (pySum points ≠ .fin 0 →
      ∃ ws, points_to_weights points = .ok ws ∧ ws.length = points.length ∧
        ∀ i, (hi : i < points.length) → (hw : i < ws.length) →
          (points.get ⟨i, hi⟩).div (pySum points) = .ok (ws.get ⟨i, hw⟩)) := by
  refine ⟨?_, ?_, ?_⟩
  · intro h
    simp only [unweighted_average, h]
    rfl
  · intro h
    constructor
    · simp [points_to_weights, h, PyF.truthy]
    · simp
  · intro h
    have ht : (pySum points).truthy = true := by
      cases hs : pySum points with
      | fin q =>
        have : ¬q = 0 := fun h0 => h (by rw [hs, h0])
        simp [PyF.truthy, this]
      | nan => rfl
      | pinf => rfl
      | ninf => rfl
    obtain ⟨ws, hws, hlen, hpt⟩ := mapM_div_ok (pySum points) h points
    have hpw : points_to_weights points =
        points.mapM (fun p => p.div (pySum points)) := by
      simp [points_to_weights, ht]
    exact ⟨ws, hpw.trans hws, hlen, hpt⟩

/-- C7 (witness): the empty average, a zero-sum weight conversion, and
    a successful nonzero-sum conversion, at concrete inputs. -/
theorem degenerate_numeric_inputs_witness :
    unweighted_average [.vnone, .vnum .nan] true = .ok .nan ∧
    points_to_weights [.fin 2, .fin (-2)] = .ok [.nan, .nan] ∧
    (points_to_weights [.fin 1, .fin 3]).toOption.isSome = true := by
  refine ⟨(degenerate_numeric_inputs [.vnone, .vnum .nan] true []).1
      (by with_unfolding_all decide),
    ((degenerate_numeric_inputs [] false [.fin 2, .fin (-2)]).2.1
      (by with_unfolding_all decide)).1, ?_⟩
  obtain ⟨ws, hws, -, -⟩ := (degenerate_numeric_inputs [] false
    [.fin 1, .fin 3]).2.2 (by with_unfolding_all decide)
  rw [hws]; rfl

/-- C6: the grade records gathered for a student are exactly that
    student's rows of the course grade set whose weight is not the
    `'CALC'` sentinel; and the run consults the user function only on
    those gathered lists — two functions agreeing on every student's
    gathered list produce identical runs. -/
theorem entered_grades_exclude_calc (db : DB) (cid sid : ℕ) (r : GRecord)
    (f g : CalcFunc) (allg : List GRecord) (students : List StudentRow)
    (d : DB) :
    (r ∈ entered_for (select_grades_for_course_members db cid) sid ↔
      r ∈ select_grades_for_course_members db cid ∧ r.student_id = sid ∧
        r.weight ≠ .vstr "CALC") ∧
    ((∀ st ∈ students,
        f (entered_for allg st.id) = g (entered_for allg st.id)) →
      runStudents f cid allg students d = runStudents g cid allg students d)
    := by
  constructor
  · simp only [entered_for, List.mem_filter, Bool.and_eq_true, beq_iff_eq,
      Bool.not_eq_true', beq_eq_false_iff_ne, ne_eq, and_assoc]
  · intro hagree
    induction students generalizing d with
    | nil => rfl
    | cons st rest ih =>
      have hst := hagree st (by simp)
      have hrest : ∀ st1 ∈ rest,
          f (entered_for allg st1.id) = g (entered_for allg st1.id) :=
        fun st1 h1 => hagree st1 (by simp [h1])
      simp only [runStudents, hst]
      cases hg : g (entered_for allg st.id) with
      | error e => dsimp only; rw [ih d hrest]
      | ok props =>
        dsimp only
        cases hsp : saveProps cid st.id props d with
        | ok db1 => dsimp only; exact ih db1 hrest
        | error e => rfl

/-- C6 (witness): the entered grade of `wdb6`'s student is gathered
    (its weight `1` is not `'CALC'`), and the run of `wf6a` equals the
    run of `wf6b`, which agrees with it on the gathered lists. -/
theorem entered_grades_exclude_calc_witness :
    wrec6 ∈ entered_for (select_grades_for_course_members wdb6 1) 1 ∧
    runStudents wf6a 1 (select_grades_for_course_members wdb6 1)
        (select_students wdb6 1) wdb6 =
      runStudents wf6b 1 (select_grades_for_course_members wdb6 1)
        (select_students wdb6 1) wdb6 :=
  ⟨(entered_grades_exclude_calc wdb6 1 1 wrec6 wf6a wf6b [] [] wdb6).1.mpr
      ⟨by with_unfolding_all decide, rfl, by decide⟩,
   (entered_grades_exclude_calc wdb6 1 1 wrec6 wf6a wf6b
      (select_grades_for_course_members wdb6 1)
      (select_students wdb6 1) wdb6).2
      (by with_unfolding_all decide)⟩

/-- C2: when the user calculation function raises on a student's
    gathered grades, the run records a skip for that student and is
    otherwise the run on the remaining students: the same store comes
    out, every remaining student is processed identically, and the
    user function's exception never surfaces as the run's outcome. -/
theorem run_skips_failing_student (f : CalcFunc) (cid : ℕ)
    (allg : List GRecord) (st : StudentRow) (rest : List StudentRow)
    (db : DB) (e : PyErr)
    (h : f (entered_for allg st.id) = .error e) :
    runStudents f cid allg (st :: rest) db =
      match runStudents f cid allg rest db with
      | .ok (db1, sk) => .ok (db1, st.id :: sk)
      | .error e1 => .error e1 := by
  simp only [runStudents, h]

/-- C2 (witness): `wf2` raises on student 1; the run over both
    students of `wdb2` equals the run over student 2 alone with a skip
    of student 1 recorded, and that remaining run succeeds. -/
theorem run_skips_failing_student_witness :
    runStudents wf2 1 (select_grades_for_course_members wdb2 1)
        (⟨1, "A", "Ann", "11"⟩ :: [⟨2, "B", "Ben", "22"⟩]) wdb2 =
      (match runStudents wf2 1 (select_grades_for_course_members wdb2 1)
          [⟨2, "B", "Ben", "22"⟩] wdb2 with
        | .ok (db1, sk) => .ok (db1, (1 : ℕ) :: sk)
        | .error e1 => .error e1) ∧
    (runStudents wf2 1 (select_grades_for_course_members wdb2 1)
        [⟨2, "B", "Ben", "22"⟩] wdb2).isOk = true :=
  ⟨run_skips_failing_student wf2 1 (select_grades_for_course_members wdb2 1)
      ⟨1, "A", "Ann", "11"⟩ [⟨2, "B", "Ben", "22"⟩] wdb2
      (.valueError "bad student") (by with_unfolding_all decide),
   by with_unfolding_all decide⟩

/-- C8 (counterexample): a lookup error while persisting one student's
    proposals aborts the whole recalculation: with two assignments
    named `total` in the course, the run over `wdb8` fails with
    `MultipleRecordsFound` instead of completing, and the second
    student is never processed. -/
theorem lookup_error_claim_false :
    calculate_grades wf8 1 wdb8 = .error .multipleRecordsFound := by
  with_unfolding_all decide

/-- C8 (as amended): a lookup error raised while persisting one
    student's proposals propagates out of the per-student loop: the
    run terminates immediately with that error and no student after
    the failing one is processed. -/
theorem lookup_error_aborts_run (f : CalcFunc) (cid : ℕ)
    (allg : List GRecord) (st : StudentRow) (rest : List StudentRow)
    (db : DB) (props : List Proposal) (e : PyErr)
    (hf : f (entered_for allg st.id) = .ok props)
    (hs : saveProps cid st.id props db = .error e) :
    runStudents f cid allg (st :: rest) db = .error e := by
  simp only [runStudents, hf, hs]

/-- C8 (witness): in `wdb8` the first student's proposal named
    `total` hits two assignments of that name; persisting it fails
    with `MultipleRecordsFound` and the run over both students is that
    error. -/
theorem lookup_error_aborts_run_witness :
    runStudents wf8 1 (select_grades_for_course_members wdb8 1)
        (⟨1, "A", "Ann", "11"⟩ :: [⟨2, "B", "Ben", "22"⟩]) wdb8 =
      .error .multipleRecordsFound :=
  lookup_error_aborts_run wf8 1 (select_grades_for_course_members wdb8 1)
    ⟨1, "A", "Ann", "11"⟩ [⟨2, "B", "Ben", "22"⟩] wdb8
    [{ name := "total", value := .vnum (.fin 1) }] .multipleRecordsFound
    (by with_unfolding_all decide) (by with_unfolding_all decide)

/-- C9 (counterexample): a per-assignment statistics failure can
    propagate out of `GradeReport.run` and abort the whole report:
    in a course with assignments but no members every assignment has
    an empty grade-row set, `types[0]` raises `IndexError`, which is
    not caught, and no record (available or unavailable) is emitted
    for any assignment. -/
theorem report_failure_isolation_claim_false :
    report_run wdb9 1 = .error .indexError := by
  with_unfolding_all decide

/-- C9 (as amended): only failures that are `ValueError` or
    `TypeError` (e.g. an unknown grade type) are caught locally and
    emitted as an `unavailable` record carrying the error, with the
    report continuing on the remaining assignments; any other failure
    (e.g. the `IndexError` from an assignment with no grade rows)
    propagates out of the run and aborts the report. -/
theorem report_catches_value_and_type_errors (allg : List GRecord)
    (a : AssignmentRow) (rest : List AssignmentRow) (e : PyErr)
    (h : statsAndHist (gradesOf allg a.id) = .error e) :
    ((e.isValueError || e.isTypeError) = true →
      report_assignments allg (a :: rest) =
        match report_assignments allg rest with
        | .ok tl => .ok (.unavailable a.id a.name e a.weight
            (missingOf (gradesOf allg a.id)) :: tl)
        | .error e1 => .error e1) ∧
    ((e.isValueError || e.isTypeError) = false →
      report_assignments allg (a :: rest) = .error e) := by
  constructor <;> intro hc <;> simp only [report_assignments, h, hc] <;> rfl

/-- C9 (witness): in `wdb9b` the first assignment has a NULL grade
    type; its statistics fail with `ValueError`, an unavailable record
    carrying that error is emitted, and the report continues with the
    second assignment. -/
theorem report_catches_value_and_type_errors_witness :
    report_assignments (select_grades_for_course_members wdb9b 1)
        (⟨1, 1, some "a1", none, none, none, .vnum (.fin 1)⟩ ::
          [⟨2, 1, some "a2", none, none, some "letter", .vnum (.fin 1)⟩]) =
      match report_assignments (select_grades_for_course_members wdb9b 1)
          [⟨2, 1, some "a2", none, none, some "letter", .vnum (.fin 1)⟩] with
      | .ok tl => .ok (.unavailable 1 (some "a1")
          (.valueError "Unknown grade type: None") (.vnum (.fin 1))
          (missingOf (gradesOf (select_grades_for_course_members wdb9b 1) 1))
          :: tl)
      | .error e1 => .error e1 :=
  (report_catches_value_and_type_errors
    (select_grades_for_course_members wdb9b 1)
    ⟨1, 1, some "a1", none, none, none, .vnum (.fin 1)⟩
    [⟨2, 1, some "a2", none, none, some "letter", .vnum (.fin 1)⟩]
    (.valueError "Unknown grade type: None")
    (by with_unfolding_all decide)).1 rfl

/-- A successful `Except` computation feeds its value to the rest of
    the `do` block. -/
theorem except_bind_ok {ε α β : Type} (a : α) (f : α → Except ε β) :
    (Except.ok a : Except ε α) >>= f = f a := rfl

/-- C10: in `calculate_stats`, a NaN mean is returned as `None`
    (unavailable) together with no letter; a mean of exactly `0.0`
    remains available but, because the conversion is guarded by the
    mean's truthiness, also yields no letter equivalent; and every
    truthy (nonzero, non-NaN) mean of grade type `letter`, `4points`
    or `percentage` is converted to a letter through the corresponding
    scale. -/
theorem stats_mean_letter_guard (grades : List GRecord) (r0 : GRecord)
    (rs : List GRecord) (mn mx : GVal) (avg : Option PyF)
    (lavg : Option String) (hg : grades = r0 :: rs)
    (h : calculate_stats grades = .ok (mn, mx, avg, lavg)) :
    (mean_for_type (grades.map (fun r => r.value)) r0.grade_type true =
        .ok .nan → avg = none ∧ lavg = none) ∧
    (avg = some (.fin 0) → lavg = none) ∧
    (∀ q : PyF, avg = some q → q.truthy = true →
      ((r0.grade_type = some "letter" ∨ r0.grade_type = some "4points") →
        ∃ l, points_to_letter q = .ok l ∧ lavg = some l) ∧
      (r0.grade_type = some "percentage" →
        ∃ l, percentage_to_letter q = .ok l ∧ lavg = some l)) := by
  subst hg
  simp only [calculate_stats, unpack_entered_grades, List.map_cons] at h
  cases hmn : min_for_type (r0.value :: rs.map (fun r => r.value))
      r0.grade_type with
  | error e => rw [hmn] at h; exact absurd h (fun hh => Except.noConfusion hh)
  | ok mnv =>
  rw [hmn] at h
  cases hmx : max_for_type (r0.value :: rs.map (fun r => r.value))
      r0.grade_type with
  | error e => rw [hmx] at h; exact absurd h (fun hh => Except.noConfusion hh)
  | ok mxv =>
  rw [hmx] at h
  cases hma : mean_for_type (r0.value :: rs.map (fun r => r.value))
      r0.grade_type true with
  | error e => rw [hma] at h; exact absurd h (fun hh => Except.noConfusion hh)
  | ok m =>
  rw [hma] at h
  simp only [except_bind_ok] at h
  by_cases hn : m.isnan = true
  · -- NaN mean: avg and letter are both None
    simp only [hn, if_true] at h
    simp only [Except.ok.injEq, Prod.mk.injEq] at h
    obtain ⟨rfl, rfl, rfl, rfl⟩ := h
    refine ⟨fun _ => ⟨rfl, rfl⟩, fun hz => ?_, fun q hqq => ?_⟩
    · cases hz
    · cases hqq
  · have hnan1 : ∀ hmean : mean_for_type ((r0 :: rs).map (fun r => r.value))
        r0.grade_type true = .ok .nan, False := by
      intro hmean
      simp only [List.map_cons] at hmean
      have h2 := hma.symm.trans hmean
      injection h2 with h2
      rw [h2] at hn
      exact hn rfl
    simp only [Bool.not_eq_true] at hn
    simp only [hn, Bool.false_eq_true, if_false] at h
    by_cases hq : m.truthy = true
    · simp only [hq, if_true] at h
      by_cases hc1 : (r0.grade_type == some "4points" ||
          r0.grade_type == some "letter") = true
      · simp only [hc1, if_true] at h
        cases hpl : points_to_letter m with
        | error e => rw [hpl] at h; exact absurd h (fun hh => Except.noConfusion hh)
        | ok l =>
          rw [hpl] at h
          simp only [except_bind_ok, Except.ok.injEq, Prod.mk.injEq] at h
          obtain ⟨rfl, rfl, rfl, rfl⟩ := h
          refine ⟨fun hmean => absurd hmean (fun hx => hnan1 hx), ?_, ?_⟩
          · intro hz
            injection hz with hz
            rw [hz] at hq
            simp [PyF.truthy] at hq
          · intro q hqq hqt
            injection hqq with hqq
            subst hqq
            refine ⟨fun _ => ⟨l, hpl, rfl⟩, ?_⟩
            intro hp
            rw [hp] at hc1
            simp at hc1
      · simp only [hc1, Bool.false_eq_true, if_false] at h
        by_cases hc2 : (r0.grade_type == some "percentage") = true
        · simp only [hc2, if_true] at h
          cases hpl : percentage_to_letter m with
          | error e => rw [hpl] at h; exact absurd h (fun hh => Except.noConfusion hh)
          | ok l =>
            rw [hpl] at h
            simp only [except_bind_ok, Except.ok.injEq, Prod.mk.injEq] at h
            obtain ⟨rfl, rfl, rfl, rfl⟩ := h
            refine ⟨fun hmean => absurd hmean (fun hx => hnan1 hx), ?_, ?_⟩
            · intro hz
              injection hz with hz
              rw [hz] at hq
              simp [PyF.truthy] at hq
            · intro q hqq hqt
              injection hqq with hqq
              subst hqq
              refine ⟨?_, fun _ => ⟨l, hpl, rfl⟩⟩
              intro hlt
              cases hlt with
              | inl h1 => rw [h1] at hc1; simp at hc1
              | inr h1 => rw [h1] at hc1; simp at hc1
        · simp only [hc2, Bool.false_eq_true, if_false] at h
          simp only [Except.ok.injEq, Prod.mk.injEq] at h
          obtain ⟨rfl, rfl, rfl, rfl⟩ := h
          refine ⟨fun hmean => absurd hmean (fun hx => hnan1 hx),
            fun _ => rfl, ?_⟩
          · intro q hqq hqt
            injection hqq with hqq
            subst hqq
            refine ⟨?_, ?_⟩
            · intro hlt
              cases hlt with
              | inl h1 => rw [h1] at hc1; simp at hc1
              | inr h1 => rw [h1] at hc1; simp at hc1
            · intro hp
              rw [hp] at hc2
              simp at hc2
    · simp only [Bool.not_eq_true] at hq
      simp only [hq, Bool.false_eq_true, if_false] at h
      simp only [Except.ok.injEq, Prod.mk.injEq] at h
      obtain ⟨rfl, rfl, rfl, rfl⟩ := h
      refine ⟨fun hmean => absurd hmean (fun hx => hnan1 hx), fun _ => rfl, ?_⟩
      intro q hqq hqt
      injection hqq with hqq
      subst hqq
      rw [hq] at hqt
      cases hqt

/-- C10 (witness): two letter grades of `F` have a mean of exactly
    zero; the statistics stay available (`some 0.0`) but the letter
    equivalent is `None`. -/
theorem stats_mean_letter_guard_witness :
    calculate_stats wrows10 = .ok (.vstr "F", .vstr "F", some (.fin 0), none) ∧
    (none : Option String) = none :=
  ⟨by with_unfolding_all decide,
   (stats_mean_letter_guard wrows10
      ⟨some 1, 1, 1, some "a", some "letter", .vnum (.fin 1), .vstr "F"⟩
      [⟨some 2, 1, 2, some "a", some "letter", .vnum (.fin 1), .vstr "F"⟩]
      (.vstr "F") (.vstr "F") (some (.fin 0)) none rfl
      (by with_unfolding_all decide)).2.1 rfl⟩

/-! ## Lemmas for the recalculation-idempotence claim -/

theorem length_filterMap_eq_countP {α β : Type} (F : α → Option β) :
    ∀ l : List α, (l.filterMap F).length = l.countP (fun a => (F a).isSome)
  | [] => rfl
  | a :: l => by
    cases hF : F a with
    | none =>
      simp [List.filterMap_cons, hF, List.countP_cons,
        length_filterMap_eq_countP F l]
    | some b =>
      simp [List.filterMap_cons, hF, List.countP_cons,
        length_filterMap_eq_countP F l]

/-- Whether a grade joins into `select_grades` depends only on its
    key. -/
theorem gradeJoinRow_isSome (db : DB) (sid cid aid : ℕ) (g : GradeRow) :
    (gradeJoinRow db sid cid aid g).isSome =
      gradeJoinTest db sid cid aid g.assignment_id g.student_id := by
  unfold gradeJoinRow gradeJoinTest
  cases db.assignments.find? (fun a => a.id == g.assignment_id) with
  | none => rfl
  | some a =>
    cases db.students.find? (fun s => s.id == g.student_id) with
    | none => rfl
    | some s =>
      by_cases h : (matchN sid s.id && matchN cid a.course_id &&
          matchN aid a.id) = true
      · simp [h]
      · simp only [Bool.not_eq_true] at h; simp [h]

theorem foldl_max_ge_init {α : Type} (f : α → ℕ) :
    ∀ (l : List α) (init : ℕ),
      init ≤ l.foldl (fun m a => max m (f a)) init
  | [], _ => le_refl _
  | a :: l, init =>
    le_trans (le_max_left init (f a)) (foldl_max_ge_init f l _)

theorem foldl_max_ge_mem {α : Type} (f : α → ℕ) :
    ∀ (l : List α) (init : ℕ) (x : α), x ∈ l →
      f x ≤ l.foldl (fun m a => max m (f a)) init := by
  intro l
  induction l with
  | nil => intro init x hx; exact absurd hx (by simp)
  | cons a l ih =>
    intro init x hx
    cases List.mem_cons.mp hx with
    | inl h =>
      subst h
      exact le_trans (le_max_right init (f x)) (foldl_max_ge_init f l _)
    | inr h => exact ih _ x h

/-- Every assignment rowid is bounded by the table's maximum. -/
theorem le_maxAssignmentId (db : DB) (a : AssignmentRow)
    (ha : a ∈ db.assignments) : a.id ≤ maxAssignmentId db :=
  foldl_max_ge_mem (fun a => a.id) db.assignments 0 a ha

/-- Every assignment rowid is strictly below the next fresh one. -/
theorem lt_nextAssignmentId (db : DB) (a : AssignmentRow)
    (ha : a ∈ db.assignments) : a.id < nextAssignmentId db :=
  Nat.lt_succ_of_le (le_maxAssignmentId db a ha)

/-- Every grade rowid is strictly below the next fresh one. -/
theorem lt_nextGradeId (db : DB) (g : GradeRow)
    (hg : g ∈ db.grades) : g.id < nextGradeId db :=
  Nat.lt_succ_of_le (foldl_max_ge_mem (fun g => g.id) db.grades 0 g hg)

theorem updEq_refl (db : DB) : UpdEq db db :=
  ⟨Eq.refl _, Eq.refl _, Eq.refl _, Eq.refl _, Eq.refl _⟩

theorem updEq_trans {db1 db2 db3 : DB} (h1 : UpdEq db1 db2)
    (h2 : UpdEq db2 db3) : UpdEq db1 db3 :=
  ⟨h2.1.trans h1.1, h2.2.1.trans h1.2.1, h2.2.2.1.trans h1.2.2.1,
   h2.2.2.2.1.trans h1.2.2.2.1, h2.2.2.2.2.trans h1.2.2.2.2⟩

/-- `select_assignments` only reads the assignments and courses
    tables. -/
theorem select_assignments_congr (db db1 : DB)
    (hc : db1.courses = db.courses)
    (ha : db1.assignments = db.assignments) (aid cid : ℕ) (nm : String) :
    select_assignments db1 aid cid nm = select_assignments db aid cid nm := by
  unfold select_assignments
  rw [hc, ha]

/-- Stores related by `UpdEq` produce `select_grades` result sets of
    equal length for every constraint combination. -/
theorem updEq_select_grades_length {db db1 : DB} (h : UpdEq db db1)
    (sid cid aid : ℕ) :
    (select_grades db1 sid cid aid).length =
      (select_grades db sid cid aid).length := by
  obtain ⟨hc, hs, hm, ha, hg⟩ := h
  unfold select_grades
  rw [length_filterMap_eq_countP, length_filterMap_eq_countP]
  have key : ∀ (d : DB) (g : GradeRow),
      ((gradeJoinRow d sid cid aid g).isSome : Bool) =
        (fun k : ℕ × ℕ × ℕ => gradeJoinTest d sid cid aid k.2.1 k.2.2)
          (gkey g) :=
    fun d g => gradeJoinRow_isSome d sid cid aid g
  calc db1.grades.countP (fun g => (gradeJoinRow db1 sid cid aid g).isSome)
      = db1.grades.countP
          ((fun k : ℕ × ℕ × ℕ => gradeJoinTest db1 sid cid aid k.2.1 k.2.2) ∘
            gkey) := by
        apply List.countP_congr; intro g _
        simp only [Function.comp_apply, key db1 g]
    _ = (db1.grades.map gkey).countP
          (fun k => gradeJoinTest db1 sid cid aid k.2.1 k.2.2) := by
        rw [List.countP_map]
    _ = (db.grades.map gkey).countP
          (fun k => gradeJoinTest db sid cid aid k.2.1 k.2.2) := by
        rw [hg]
        congr 1
        funext k
        unfold gradeJoinTest
        rw [ha, hs]
    _ = db.grades.countP
          ((fun k : ℕ × ℕ × ℕ => gradeJoinTest db sid cid aid k.2.1 k.2.2) ∘
            gkey) := by rw [List.countP_map]
    _ = db.grades.countP (fun g => (gradeJoinRow db sid cid aid g).isSome) := by
        apply List.countP_congr; intro g _
        simp only [Function.comp_apply, key db g]

/-- `UpdEq` preserves named-assignment uniqueness. -/
theorem updEq_uniqA {db db1 : DB} (h : UpdEq db db1) (cid : ℕ)
    (nm : String) (aid : ℕ) (hA : uniqA db cid nm aid) :
    uniqA db1 cid nm aid := by
  unfold uniqA at hA ⊢
  rw [select_assignments_congr db db1 h.1 h.2.2.2.1]
  exact hA

/-- `UpdEq` preserves per-student grade uniqueness. -/
theorem updEq_uniqG {db db1 : DB} (h : UpdEq db db1) (sid aid : ℕ)
    (hG : uniqG db sid aid) : uniqG db1 sid aid := by
  unfold uniqG at hG ⊢
  rw [updEq_select_grades_length h]
  exact hG

/-- `UpdEq` preserves well-formedness. -/
theorem updEq_WF {db db1 : DB} (h : UpdEq db db1) (hWF : WF db) :
    WF db1 := by
  obtain ⟨hc, hs, hm, ha, hg⟩ := h
  obtain ⟨w1, w2, w3, w4, w5, w6⟩ := hWF
  have hids : db1.grades.map (fun g => g.id) = db.grades.map (fun g => g.id) := by
    have h1 : db1.grades.map (fun g => g.id) =
        (db1.grades.map gkey).map (fun k => k.1) := by
      rw [List.map_map]; rfl
    have h2 : db.grades.map (fun g => g.id) =
        (db.grades.map gkey).map (fun k => k.1) := by
      rw [List.map_map]; rfl
    rw [h1, h2, hg]
  have hmem : ∀ g ∈ db1.grades, ∃ g1 ∈ db.grades, gkey g1 = gkey g := by
    intro g hgm
    have : gkey g ∈ db.grades.map gkey := by
      rw [← hg]; exact List.mem_map_of_mem gkey hgm
    obtain ⟨g1, hg1, hkey⟩ := List.mem_map.mp this
    exact ⟨g1, hg1, hkey⟩
  refine ⟨by rw [hids]; exact w1, by rw [ha]; exact w2, ?_, ?_, ?_, ?_⟩
  · intro g hgm
    obtain ⟨g1, hg1, hkey⟩ := hmem g hgm
    have : g1.id = g.id := congrArg (fun k => k.1) hkey
    rw [← this]; exact w3 g1 hg1
  · intro a ham; rw [ha] at ham; exact w4 a ham
  · intro s hsm; rw [hs] at hsm; exact w5 s hsm
  · intro g hgm
    obtain ⟨g1, hg1, hkey⟩ := hmem g hgm
    have heq : g1.assignment_id = g.assignment_id :=
      congrArg (fun k : ℕ × ℕ × ℕ => k.2.1) hkey
    have hmax : maxAssignmentId db1 = maxAssignmentId db := by
      unfold maxAssignmentId; rw [ha]
    rw [hmax, ← heq]; exact w6 g1 hg1

theorem ensure_unique_ok {α β : Type} (first : α → β) (rows : List α)
    (b : β) (h : ensure_unique first rows = .ok b) :
    ∃ r, rows = [r] ∧ first r = b := by
  cases rows with
  | nil => exact absurd h (fun hh => Except.noConfusion hh)
  | cons r rest =>
    cases rest with
    | nil =>
      refine ⟨r, Eq.refl _, ?_⟩
      injection h
    | cons r2 rest2 => exact absurd h (fun hh => Except.noConfusion hh)

theorem ensure_unique_noRecords {α β : Type} (first : α → β)
    (rows : List α) (h : ensure_unique first rows = .error .noRecordsFound) :
    rows = [] := by
  cases rows with
  | nil => exact Eq.refl _
  | cons r rest =>
    cases rest with
    | nil => exact absurd h (fun hh => Except.noConfusion hh)
    | cons r2 rest2 =>
      unfold ensure_unique at h
      injection h with h
      exact absurd h (fun hh => PyErr.noConfusion hh)

/-- Provenance of a `select_assignments` row. -/
theorem select_assignments_mem (db : DB) (aidp cidp : ℕ) (nm : String)
    (r : AssignmentSel) (hr : r ∈ select_assignments db aidp cidp nm) :
    ∃ a ∈ db.assignments, r = ⟨a.id, a.course_id, a.name, a.due_date⟩ ∧
      db.courses.contains a.course_id = true ∧
      (nm ≠ "" → a.name = some nm) ∧
      (cidp ≠ 0 → a.course_id = cidp) := by
  unfold select_assignments at hr
  obtain ⟨a, ham, hemit⟩ := List.mem_filterMap.mp hr
  by_cases hcond : (db.courses.contains a.course_id && matchN aidp a.id &&
      matchN cidp a.course_id && matchS nm a.name) = true
  · rw [if_pos hcond] at hemit
    injection hemit with hemit
    simp only [Bool.and_eq_true] at hcond
    obtain ⟨⟨⟨hcont, _⟩, hcid⟩, hnm⟩ := hcond
    refine ⟨a, ham, hemit.symm, hcont, ?_, ?_⟩
    · intro hne
      unfold matchS at hnm
      simp only [Bool.or_eq_true, beq_iff_eq] at hnm
      cases hnm with
      | inl h0 => exact absurd h0 hne
      | inr h0 => exact h0
    · intro hne
      unfold matchN at hcid
      simp only [Bool.or_eq_true, beq_iff_eq] at hcid
      cases hcid with
      | inl h0 => exact absurd h0 hne
      | inr h0 => exact h0.symm
  · rw [if_neg hcond] at hemit
    exact absurd hemit (by simp)

/-- Provenance of a `select_grades` row. -/
theorem select_grades_mem (db : DB) (sidp cidp aidp : ℕ) (r : GradeSel)
    (hr : r ∈ select_grades db sidp cidp aidp) :
    ∃ g ∈ db.grades, g.id = r.grade_id ∧
      g.student_id = r.student_id ∧ g.assignment_id = r.assignment_id ∧
      g.value = r.value ∧
      (sidp ≠ 0 → r.student_id = sidp) ∧ (aidp ≠ 0 → r.assignment_id = aidp)
    := by
  unfold select_grades gradeJoinRow at hr
  obtain ⟨g, hgm, hemit⟩ := List.mem_filterMap.mp hr
  cases hfa : db.assignments.find? (fun a => a.id == g.assignment_id) with
  | none => rw [hfa] at hemit; exact absurd hemit (by simp)
  | some a =>
  cases hfs : db.students.find? (fun s => s.id == g.student_id) with
  | none => rw [hfa, hfs] at hemit; exact absurd hemit (by simp)
  | some s =>
  rw [hfa, hfs] at hemit
  dsimp only at hemit
  have haid : a.id = g.assignment_id := by
    have := List.find?_some hfa; simpa using this
  have hsid : s.id = g.student_id := by
    have := List.find?_some hfs; simpa using this
  by_cases hcond : (matchN sidp s.id && matchN cidp a.course_id &&
      matchN aidp a.id) = true
  · rw [if_pos hcond] at hemit
    injection hemit with hemit
    subst hemit
    simp only [Bool.and_eq_true] at hcond
    obtain ⟨⟨hst, _⟩, hai⟩ := hcond
    refine ⟨g, hgm, Eq.refl _, hsid.symm, haid.symm, Eq.refl _, ?_, ?_⟩
    · intro hne
      unfold matchN at hst
      simp only [Bool.or_eq_true, beq_iff_eq] at hst
      cases hst with
      | inl h0 => exact absurd h0 hne
      | inr h0 => exact h0.symm
    · intro hne
      unfold matchN at hai
      simp only [Bool.or_eq_true, beq_iff_eq] at hai
      cases hai with
      | inl h0 => exact absurd h0 hne
      | inr h0 => exact h0.symm
  · rw [if_neg hcond] at hemit
    exact absurd hemit (by simp)

/-- Replacing (by rowid) a grade row with one carrying the same
    foreign keys preserves the table's keys. -/
theorem map_gkey_replace (l : List GradeRow) (gid aid sid : ℕ)
    (new : GradeRow) (hnew : gkey new = (gid, aid, sid))
    (hl : ∀ g ∈ l, g.id = gid →
      g.assignment_id = aid ∧ g.student_id = sid) :
    (l.map (fun g => if g.id == gid then new else g)).map gkey =
      l.map gkey := by
  induction l with
  | nil => rfl
  | cons g l ih =>
    have ihl : ∀ g1 ∈ l, g1.id = gid →
        g1.assignment_id = aid ∧ g1.student_id = sid :=
      fun g1 h1 => hl g1 (by simp [h1])
    by_cases hid : (g.id == gid) = true
    · have hgid : g.id = gid := by simpa using hid
      obtain ⟨h1, h2⟩ := hl g (by simp) hgid
      have hkey : gkey new = gkey g := by
        rw [hnew]; unfold gkey; rw [hgid, h1, h2]
      simp only [List.map_cons, hid, if_true, List.cons.injEq]
      exact ⟨hkey, ih ihl⟩
    · simp only [Bool.not_eq_true] at hid
      simp only [List.map_cons, hid, Bool.false_eq_true, if_false,
        List.cons.injEq]
      exact ⟨trivial, ih ihl⟩

/-- `create_or_update_grade` in its replace mode (a truthy grade id
    naming an existing row with the same foreign keys) is a pure
    update. -/
theorem create_or_update_replace (db : DB) (gid aid sid : ℕ) (v : GVal)
    (hgid : gid ≠ 0)
    (hex : db.grades.any (fun g => g.id == gid) = true)
    (hl : ∀ g ∈ db.grades, g.id = gid →
      g.assignment_id = aid ∧ g.student_id = sid) :
    (create_or_update_grade db gid aid sid v).1 = gid ∧
      UpdEq db (create_or_update_grade db gid aid sid v).2 := by
  unfold create_or_update_grade
  have h0 : (gid == 0) = false := by simpa using hgid
  rw [h0]
  simp only [Bool.false_eq_true, if_false, hex, if_true]
  constructor
  · trivial
  · exact ⟨rfl, rfl, rfl, rfl,
      map_gkey_replace db.grades gid aid sid _ (Eq.refl _) hl⟩

theorem gradeJoinRow_congr (db db1 : DB)
    (ha : db1.assignments = db.assignments)
    (hs : db1.students = db.students) (sid cid aid : ℕ) :
    gradeJoinRow db1 sid cid aid = gradeJoinRow db sid cid aid := by
  funext g
  unfold gradeJoinRow
  rw [ha, hs]

theorem filterMap_singleton {α β : Type} (f : α → Option β) (a : α) :
    List.filterMap f [a] = (f a).toList := by
  cases h : f a <;> simp [h]

/-- Appending a grade row extends each `select_grades` result set by
    that row's (possible) contribution. -/
theorem select_grades_append_grade (db : DB) (g0 : GradeRow) (c : ℕ)
    (sid cid aid : ℕ) :
    select_grades { db with grades := db.grades ++ [g0], clock := c }
        sid cid aid =
      select_grades db sid cid aid ++
        (gradeJoinRow db sid cid aid g0).toList := by
  unfold select_grades
  rw [gradeJoinRow_congr db { db with grades := db.grades ++ [g0], clock := c }
    (Eq.refl _) (Eq.refl _)]
  rw [List.filterMap_append, filterMap_singleton]

/-- Appending an assignment row extends each `select_assignments`
    result set by that row's (possible) contribution. -/
theorem select_assignments_append (db : DB) (A : AssignmentRow)
    (aidp cidp : ℕ) (nm : String) :
    select_assignments { db with assignments := db.assignments ++ [A] }
        aidp cidp nm =
      select_assignments db aidp cidp nm ++
        (if db.courses.contains A.course_id && matchN aidp A.id &&
            matchN cidp A.course_id && matchS nm A.name then
          [⟨A.id, A.course_id, A.name, A.due_date⟩] else []) := by
  unfold select_assignments
  rw [List.filterMap_append, filterMap_singleton]
  congr 1
  by_cases h : (db.courses.contains A.course_id && matchN aidp A.id &&
      matchN cidp A.course_id && matchS nm A.name) = true
  · rw [if_pos h, if_pos h]
    rfl
  · rw [if_neg h, if_neg h]
    rfl

/-- A grade whose assignment reference is within the current table
    bound joins identically after a fresh assignment is appended. -/
theorem gradeJoinRow_assign_append (db : DB) (A : AssignmentRow)
    (hA : maxAssignmentId db < A.id) (sid cid aid : ℕ) (g : GradeRow)
    (hg : g.assignment_id ≤ maxAssignmentId db) :
    gradeJoinRow { db with assignments := db.assignments ++ [A] }
        sid cid aid g = gradeJoinRow db sid cid aid g := by
  unfold gradeJoinRow
  have hne : (A.id == g.assignment_id) = false := by
    simp only [beq_eq_false_iff_ne, ne_eq]
    intro hAg
    rw [hAg] at hA
    exact absurd hg (by omega)
  rw [List.find?_append]
  cases hf : db.assignments.find? (fun a => a.id == g.assignment_id) with
  | some a => rfl
  | none => simp [List.find?, hne]

/-- Appending a fresh assignment row leaves every `select_grades`
    result set unchanged (no existing grade can reference it). -/
theorem select_grades_assign_append (db : DB) (A : AssignmentRow)
    (hA : maxAssignmentId db < A.id)
    (hfw : ∀ g ∈ db.grades, g.assignment_id ≤ maxAssignmentId db)
    (sid cid aid : ℕ) :
    select_grades { db with assignments := db.assignments ++ [A] }
        sid cid aid = select_grades db sid cid aid := by
  unfold select_grades
  exact List.filterMap_congr (fun g hg =>
    gradeJoinRow_assign_append db A hA sid cid aid g (hfw g hg))

/-- The row an inserted grade contributes to the student's
    per-assignment lookup: present whenever its assignment and student
    references resolve. -/
theorem gradeJoinRow_inserted (db : DB) (sid aid : ℕ) (g0 : GradeRow)
    (hga : g0.assignment_id = aid) (hgs : g0.student_id = sid)
    (ha : ∃ a ∈ db.assignments, a.id = aid)
    (hs : ∃ s ∈ db.students, s.id = sid) :
    (gradeJoinRow db sid 0 aid g0).isSome = true := by
  unfold gradeJoinRow
  have hfa : (db.assignments.find? (fun a => a.id == g0.assignment_id)).isSome
      = true := by
    rw [List.find?_isSome]
    obtain ⟨a, ham, haid⟩ := ha
    exact ⟨a, ham, by simp [haid, hga]⟩
  have hfs : (db.students.find? (fun s => s.id == g0.student_id)).isSome
      = true := by
    rw [List.find?_isSome]
    obtain ⟨s, hsm, hsid1⟩ := hs
    exact ⟨s, hsm, by simp [hsid1, hgs]⟩
  cases hfa1 : db.assignments.find? (fun a => a.id == g0.assignment_id) with
  | none => rw [hfa1] at hfa; exact absurd hfa (by simp)
  | some a =>
  cases hfs1 : db.students.find? (fun s => s.id == g0.student_id) with
  | none => rw [hfs1] at hfs; exact absurd hfs (by simp)
  | some s =>
  have haid : a.id = g0.assignment_id := by
    have := List.find?_some hfa1; simpa using this
  have hsid1 : s.id = g0.student_id := by
    have := List.find?_some hfs1; simpa using this
  have hcond : (matchN sid s.id && matchN 0 a.course_id &&
      matchN aid a.id) = true := by
    unfold matchN
    simp [hsid1, hgs, haid, hga]
  dsimp only
  rw [if_pos hcond]
  rfl

/-- A grade can only join under student/assignment constraints that
    are wildcards or equal to its own keys. -/
theorem gradeJoinRow_isSome_constraints (db : DB) (sidp cidp aidp : ℕ)
    (g : GradeRow) (h : (gradeJoinRow db sidp cidp aidp g).isSome = true) :
    (sidp = 0 ∨ sidp = g.student_id) ∧ (aidp = 0 ∨ aidp = g.assignment_id)
    := by
  unfold gradeJoinRow at h
  cases hfa : db.assignments.find? (fun a => a.id == g.assignment_id) with
  | none => rw [hfa] at h; exact absurd h (by simp)
  | some a =>
  cases hfs : db.students.find? (fun s => s.id == g.student_id) with
  | none => rw [hfa, hfs] at h; exact absurd h (by simp)
  | some s =>
  rw [hfa, hfs] at h
  dsimp only at h
  have haid : a.id = g.assignment_id := by
    have := List.find?_some hfa; simpa using this
  have hsid : s.id = g.student_id := by
    have := List.find?_some hfs; simpa using this
  by_cases hcond : (matchN sidp s.id && matchN cidp a.course_id &&
      matchN aidp a.id) = true
  · simp only [Bool.and_eq_true] at hcond
    obtain ⟨⟨h1, _⟩, h3⟩ := hcond
    unfold matchN at h1 h3
    simp only [Bool.or_eq_true, beq_iff_eq] at h1 h3
    constructor
    · cases h1 with
      | inl h0 => exact Or.inl h0
      | inr h0 => exact Or.inr (by rw [h0, hsid])
    · cases h3 with
      | inl h0 => exact Or.inl h0
      | inr h0 => exact Or.inr (by rw [h0, haid])
  · rw [if_neg hcond] at h
    exact absurd h (by simp)

/-- No grade can be selected under an assignment constraint beyond the
    assignments table's largest rowid. -/
theorem select_grades_beyond (db : DB) (sidp cidp aidp : ℕ)
    (hbig : maxAssignmentId db < aidp) :
    select_grades db sidp cidp aidp = [] := by
  unfold select_grades
  rw [List.filterMap_eq_nil_iff]
  intro g hg
  unfold gradeJoinRow
  cases hfa : db.assignments.find? (fun a => a.id == g.assignment_id) with
  | none => rfl
  | some a =>
  cases hfs : db.students.find? (fun s => s.id == g.student_id) with
  | none => rfl
  | some s =>
  dsimp only
  have ham : a ∈ db.assignments := List.mem_of_find?_eq_some hfa
  have haid : a.id = g.assignment_id := by
    have := List.find?_some hfa; simpa using this
  have hne : matchN aidp a.id = false := by
    unfold matchN
    have h1 : a.id ≤ maxAssignmentId db := le_maxAssignmentId db a ham
    have h2 : aidp ≠ 0 := by omega
    have h3 : aidp ≠ a.id := by omega
    simp [h2, h3]
  rw [if_neg (by simp [hne])]

/-- The assignments-table maximum after an append. -/
theorem maxAssignmentId_append (db : DB) (A : AssignmentRow) :
    maxAssignmentId { db with assignments := db.assignments ++ [A] } =
      max (maxAssignmentId db) A.id := by
  unfold maxAssignmentId
  rw [List.foldl_append]
  rfl

theorem pres_refl (cid : ℕ) (db : DB) : Pres cid db db :=
  ⟨Eq.refl _, Eq.refl _, Eq.refl _, fun _ _ _ h => h,
   fun _ _ _ _ h => h, fun h => h⟩

theorem pres_trans {cid : ℕ} {db1 db2 db3 : DB} (h1 : Pres cid db1 db2)
    (h2 : Pres cid db2 db3) : Pres cid db1 db3 :=
  ⟨h2.1.trans h1.1, h2.2.1.trans h1.2.1, h2.2.2.1.trans h1.2.2.1,
   fun nm aid hnm hA => h2.2.2.2.1 nm aid hnm (h1.2.2.2.1 nm aid hnm hA),
   fun sid aid hs ha hG =>
     h2.2.2.2.2.1 sid aid hs ha (h1.2.2.2.2.1 sid aid hs ha hG),
   fun hWF => h2.2.2.2.2.2 (h1.2.2.2.2.2 hWF)⟩

/-- A pure grade update satisfies the run-preservation contract. -/
theorem pres_of_updEq {cid : ℕ} {db db1 : DB} (h : UpdEq db db1) :
    Pres cid db db1 :=
  ⟨h.1, h.2.1, h.2.2.1,
   fun nm aid _ hA => updEq_uniqA h cid nm aid hA,
   fun sid aid _ _ hG => updEq_uniqG h sid aid hG,
   fun hWF => updEq_WF h hWF⟩

/-- A name-based proposal that passes the two validations resolves by
    assignment-name lookup and then by grade lookup. -/
theorem save_unfold_name (db : DB) (cid sid : ℕ) (p : Proposal)
    (hnb : nameBasedProp p) (hname : p.name ≠ "") (hval : p.value ≠ .vnone) :
    save_calculated_grade db cid sid p =
      match ensure_unique (fun r => r.assignment_id)
          (select_assignments db 0 cid p.name) with
      | .ok aid =>
        (match ensure_unique (fun r => r.grade_id)
            (select_grades db sid 0 aid) with
        | .ok gid => .ok (create_or_update_grade db gid aid sid p.value)
        | .error .noRecordsFound =>
          .ok (create_or_update_grade db 0 aid sid p.value)
        | .error e => .error e)
      | .error .noRecordsFound =>
        (match ensure_unique (fun r => r.grade_id)
            (select_grades (create_assignment db cid p.name p.description
              p.due_date p.grade_type p.weight).2 sid 0
              (nextAssignmentId db)) with
        | .ok gid => .ok (create_or_update_grade (create_assignment db cid
            p.name p.description p.due_date p.grade_type p.weight).2 gid
            (nextAssignmentId db) sid p.value)
        | .error .noRecordsFound =>
          .ok (create_or_update_grade (create_assignment db cid p.name
            p.description p.due_date p.grade_type p.weight).2 0
            (nextAssignmentId db) sid p.value)
        | .error e => .error e)
      | .error e => .error e := by
  unfold save_calculated_grade
  have h1 : (p.name == "") = false := by simpa using hname
  have h2 : (p.value == GVal.vnone) = false := by simpa using hval
  have h3 : (p.grade_id != 0) = false := by simp [hnb.1]
  have h4 : (p.assignment_id != 0) = false := by simp [hnb.2]
  simp only [h1, h2, h3, h4, Bool.false_and, Bool.false_eq_true, if_false]
  cases hens : ensure_unique (fun r => r.assignment_id)
      (select_assignments db 0 cid p.name) with
  | ok aid => rfl
  | error e => cases e <;> rfl

theorem uniqA_elim {db : DB} {cid : ℕ} {nm : String} {aid : ℕ}
    (h : uniqA db cid nm aid) :
    ∃ r, select_assignments db 0 cid nm = [r] ∧ r.assignment_id = aid := by
  unfold uniqA at h
  cases hsel : select_assignments db 0 cid nm with
  | nil => rw [hsel] at h; exact absurd h (by simp)
  | cons r rest =>
    cases rest with
    | nil =>
      rw [hsel] at h
      simp only [List.map_cons, List.map_nil, List.cons.injEq,
        and_true] at h
      exact ⟨r, Eq.refl _, h⟩
    | cons r2 rest2 => rw [hsel] at h; exact absurd h (by simp)

theorem uniqA_ensure {db : DB} {cid : ℕ} {nm : String} {aid : ℕ}
    (h : uniqA db cid nm aid) :
    ensure_unique (fun r => r.assignment_id)
      (select_assignments db 0 cid nm) = .ok aid := by
  obtain ⟨r, hsel, hid⟩ := uniqA_elim h
  rw [hsel]
  show Except.ok r.assignment_id = Except.ok aid
  rw [hid]

theorem uniqG_elim {db : DB} {sid aid : ℕ} (h : uniqG db sid aid) :
    ∃ r, select_grades db sid 0 aid = [r] := by
  unfold uniqG at h
  cases hsel : select_grades db sid 0 aid with
  | nil => rw [hsel] at h; exact absurd h (by simp)
  | cons r rest =>
    cases rest with
    | nil => exact ⟨r, Eq.refl _⟩
    | cons r2 rest2 => rw [hsel] at h; exact absurd h (by simp)

/-- When the resolved assignment is unique and the student already has
    exactly one grade on it, a name-based save succeeds and performs a
    pure update (no row is added or removed). -/
theorem save_update_step (db : DB) (cid sid : ℕ) (p : Proposal) (aid : ℕ)
    (hWF : WF db) (hnb : nameBasedProp p) (hname : p.name ≠ "")
    (hval : p.value ≠ .vnone) (hsid : 1 ≤ sid)
    (hA : uniqA db cid p.name aid) (hG : uniqG db sid aid) :
    ∃ rid db1, save_calculated_grade db cid sid p = .ok (rid, db1) ∧
      UpdEq db db1 := by
  obtain ⟨w1, w2, w3, w4, w5, w6⟩ := hWF
  obtain ⟨r, hrsel, hraid⟩ := uniqA_elim hA
  have haid1 : 1 ≤ aid := by
    obtain ⟨a, ham, hra, -, -, -⟩ := select_assignments_mem db 0 cid p.name r
      (by rw [hrsel]; exact List.mem_singleton.mpr (Eq.refl _))
    have : r.assignment_id = a.id := by rw [hra]
    rw [← hraid, this]
    exact w4 a ham
  obtain ⟨r1, hr1⟩ := uniqG_elim hG
  have hensG : ensure_unique (fun r => r.grade_id)
      (select_grades db sid 0 aid) = .ok r1.grade_id := by
    rw [hr1]; rfl
  obtain ⟨g, hgm, hid, hstu, hass, -, hs2, ha2⟩ :=
    select_grades_mem db sid 0 aid r1
      (by rw [hr1]; exact List.mem_singleton.mpr (Eq.refl _))
  have hrs : r1.student_id = sid := hs2 (by omega)
  have hra : r1.assignment_id = aid := ha2 (by omega)
  have hgid1 : 1 ≤ r1.grade_id := by rw [← hid]; exact w3 g hgm
  have hany : db.grades.any (fun g2 => g2.id == r1.grade_id) = true := by
    rw [List.any_eq_true]
    exact ⟨g, hgm, by simp [hid]⟩
  have hl : ∀ g2 ∈ db.grades, g2.id = r1.grade_id →
      g2.assignment_id = aid ∧ g2.student_id = sid := by
    intro g2 hg2 hid2
    have hg2g : g2 = g := List.inj_on_of_nodup_map w1 hg2 hgm
      (by rw [hid2, hid])
    rw [hg2g]
    exact ⟨by rw [hass, hra], by rw [hstu, hrs]⟩
  obtain ⟨hrid, hupd⟩ := create_or_update_replace db r1.grade_id aid sid
    p.value (by omega) hany hl
  refine ⟨(create_or_update_grade db r1.grade_id aid sid p.value).1,
    (create_or_update_grade db r1.grade_id aid sid p.value).2, ?_, hupd⟩
  rw [save_unfold_name db cid sid p hnb hname hval, uniqA_ensure hA]
  dsimp only
  rw [hensG]

/-- `create_or_update_grade` without a grade id inserts a fresh row. -/
theorem create_or_update_insert (base : DB) (aid sid : ℕ) (v : GVal) :
    create_or_update_grade base 0 aid sid v =
      (nextGradeId base, { base with
        grades := base.grades ++
          [⟨nextGradeId base, aid, sid, storedVal v, base.clock⟩],
        clock := base.clock + 1 }) := rfl

/-- Inserting a first grade for `(sid, aid)` preserves every other
    pair's grade uniqueness, preserves well-formedness, and establishes
    uniqueness for `(sid, aid)` itself. -/
theorem insert_grade_step (base : DB) (sid aid : ℕ) (v : GVal) (dbB : DB)
    (hdbB : dbB = { base with
      grades := base.grades ++
        [⟨nextGradeId base, aid, sid, storedVal v, base.clock⟩],
      clock := base.clock + 1 })
    (hWF : WF base)
    (hamem : ∃ a ∈ base.assignments, a.id = aid)
    (haidle : aid ≤ maxAssignmentId base)
    (hsmem : ∃ s ∈ base.students, s.id = sid)
    (hempty : select_grades base sid 0 aid = []) :
    dbB.courses = base.courses ∧ dbB.students = base.students ∧
    dbB.memberships = base.memberships ∧
    dbB.assignments = base.assignments ∧
    (∀ sid' aid', 1 ≤ sid' → 1 ≤ aid' → uniqG base sid' aid' →
      uniqG dbB sid' aid') ∧
    WF dbB ∧ uniqG dbB sid aid := by
  subst hdbB
  obtain ⟨w1, w2, w3, w4, w5, w6⟩ := hWF
  refine ⟨Eq.refl _, Eq.refl _, Eq.refl _, Eq.refl _, ?_, ?_, ?_⟩
  · intro sid' aid' h1 h2 hGp
    unfold uniqG at hGp ⊢
    rw [select_grades_append_grade, List.length_append]
    by_cases hopt : (gradeJoinRow base sid' 0 aid'
        ⟨nextGradeId base, aid, sid, storedVal v, base.clock⟩).isSome = true
    · exfalso
      obtain ⟨hs', ha'⟩ := gradeJoinRow_isSome_constraints base sid' 0 aid'
        _ hopt
      have hs2 : sid' = sid := by
        cases hs' with
        | inl h0 => omega
        | inr h0 => exact h0
      have ha2 : aid' = aid := by
        cases ha' with
        | inl h0 => omega
        | inr h0 => exact h0
      rw [hs2, ha2, hempty] at hGp
      exact absurd hGp (by simp)
    · have hnone : gradeJoinRow base sid' 0 aid'
          ⟨nextGradeId base, aid, sid, storedVal v, base.clock⟩ = none := by
        cases hgj : gradeJoinRow base sid' 0 aid'
            ⟨nextGradeId base, aid, sid, storedVal v, base.clock⟩ with
        | none => rfl
        | some r => rw [hgj] at hopt; exact absurd (by simp) hopt
      rw [hnone]
      simpa using hGp
  · refine ⟨?_, w2, ?_, w4, w5, ?_⟩
    · show (List.map (fun g => g.id)
        (base.grades ++ [⟨nextGradeId base, aid, sid, storedVal v,
          base.clock⟩])).Nodup
      rw [List.map_append]
      rw [List.nodup_append]
      refine ⟨w1, List.nodup_singleton _, ?_⟩
      intro x hx
      obtain ⟨g, hgm, hgid⟩ := List.mem_map.mp hx
      have := lt_nextGradeId base g hgm
      simp only [List.map_cons, List.map_nil, List.mem_singleton]
      omega
    · intro g hgm
      rw [List.mem_append] at hgm
      cases hgm with
      | inl h0 => exact w3 g h0
      | inr h0 =>
        rw [List.mem_singleton] at h0
        rw [h0]
        exact Nat.succ_le_succ (Nat.zero_le _)
    · intro g hgm
      rw [List.mem_append] at hgm
      cases hgm with
      | inl h0 => exact w6 g h0
      | inr h0 =>
        rw [List.mem_singleton] at h0
        rw [h0]
        exact haidle
  · unfold uniqG
    rw [select_grades_append_grade, hempty]
    have hopt := gradeJoinRow_inserted base sid aid
      ⟨nextGradeId base, aid, sid, storedVal v, base.clock⟩
      (Eq.refl _) (Eq.refl _) hamem hsmem
    cases hgj : gradeJoinRow base sid 0 aid
        ⟨nextGradeId base, aid, sid, storedVal v, base.clock⟩ with
    | none => rw [hgj] at hopt; exact absurd hopt (by simp)
    | some r => rfl

/-- Creating a fresh assignment for a name with no existing assignment
    preserves uniqueness facts, leaves every grade lookup unchanged,
    and establishes name uniqueness for the created assignment. -/
theorem create_assignment_step (db : DB) (cid : ℕ)
    (nm d dd gt : String) (w : GVal) (dbA : DB) (A : AssignmentRow)
    (hA : A = ⟨nextAssignmentId db, cid, optS nm, optS d, optS dd,
      optS gt, storedVal w⟩)
    (hdbA : dbA = { db with assignments := db.assignments ++ [A] })
    (hWF : WF db) (hc : db.courses.contains cid = true) (hnm : nm ≠ "")
    (hempty : select_assignments db 0 cid nm = []) :
    dbA.courses = db.courses ∧ dbA.students = db.students ∧
    dbA.memberships = db.memberships ∧
    (∀ nm' aid', nm' ≠ "" → uniqA db cid nm' aid' → uniqA dbA cid nm' aid') ∧
    (∀ sid' cid' aid',
      select_grades dbA sid' cid' aid' = select_grades db sid' cid' aid') ∧
    WF dbA ∧ uniqA dbA cid nm (nextAssignmentId db) ∧
    maxAssignmentId dbA = nextAssignmentId db ∧
    nextGradeId dbA = nextGradeId db ∧ dbA.clock = db.clock ∧
    dbA.grades = db.grades := by
  subst hdbA
  obtain ⟨w1, w2, w3, w4, w5, w6⟩ := hWF
  have hAid : A.id = nextAssignmentId db := by rw [hA]
  have hAbig : maxAssignmentId db < A.id := by
    rw [hAid]; exact Nat.lt_succ_of_le (le_refl _)
  have hAname : A.name = some nm := by
    rw [hA]
    show optS nm = some nm
    unfold optS
    rw [if_neg (by simpa using hnm)]
  have hAcourse : A.course_id = cid := by rw [hA]
  have hgr : ∀ sid' cid' aid',
      select_grades { db with assignments := db.assignments ++ [A] }
        sid' cid' aid' = select_grades db sid' cid' aid' := by
    intro sid' cid' aid'
    exact select_grades_assign_append db A hAbig w6 sid' cid' aid'
  have hselA : ∀ nm' ,
      select_assignments { db with assignments := db.assignments ++ [A] }
        0 cid nm' =
      select_assignments db 0 cid nm' ++
        (if db.courses.contains A.course_id && matchN 0 A.id &&
            matchN cid A.course_id && matchS nm' A.name then
          [⟨A.id, A.course_id, A.name, A.due_date⟩] else []) := by
    intro nm'
    exact select_assignments_append db A 0 cid nm'
  refine ⟨Eq.refl _, Eq.refl _, Eq.refl _, ?_, hgr, ?_, ?_, ?_,
    Eq.refl _, Eq.refl _, Eq.refl _⟩
  · intro nm' aid' hnm' hApre
    by_cases heq : nm = nm'
    · exfalso
      obtain ⟨r, hsel, -⟩ := uniqA_elim hApre
      rw [← heq, hempty] at hsel
      exact absurd hsel (by simp)
    · unfold uniqA at hApre ⊢
      rw [hselA nm']
      have hcond : (db.courses.contains A.course_id && matchN 0 A.id &&
          matchN cid A.course_id && matchS nm' A.name) = false := by
        have : matchS nm' A.name = false := by
          rw [hAname]
          unfold matchS
          have h1 : (nm' == "") = false := by simpa using hnm'
          have h2 : (some nm == some nm') = false := by
            simp only [beq_eq_false_iff_ne, ne_eq, Option.some.injEq]
            exact heq
          rw [h1, h2]
          rfl
        rw [this]
        simp
      rw [if_neg (by rw [hcond]; exact Bool.false_ne_true),
        List.append_nil]
      exact hApre
  · refine ⟨w1, ?_, w3, ?_, w5, ?_⟩
    · show (List.map (fun a => a.id) (db.assignments ++ [A])).Nodup
      rw [List.map_append, List.nodup_append]
      refine ⟨w2, List.nodup_singleton _, ?_⟩
      intro x hx
      obtain ⟨a, ham, haid⟩ := List.mem_map.mp hx
      have := lt_nextAssignmentId db a ham
      simp only [List.map_cons, List.map_nil, List.mem_singleton]
      omega
    · intro a ham
      rw [List.mem_append] at ham
      cases ham with
      | inl h0 => exact w4 a h0
      | inr h0 =>
        rw [List.mem_singleton] at h0
        rw [h0, hAid]
        exact Nat.succ_le_succ (Nat.zero_le _)
    · intro g hgm
      have hmax : maxAssignmentId { db with
          assignments := db.assignments ++ [A] } =
          max (maxAssignmentId db) A.id := maxAssignmentId_append db A
      rw [hmax]
      exact le_trans (w6 g hgm) (le_max_left _ _)
  · unfold uniqA
    rw [hselA nm, hempty]
    have hcond : (db.courses.contains A.course_id && matchN 0 A.id &&
        matchN cid A.course_id && matchS nm A.name) = true := by
      have hcmem : cid ∈ db.courses := by simpa using hc
      rw [hAname, hAcourse]
      simp [matchN, matchS, hcmem]
    rw [if_pos hcond]
    simp only [List.nil_append, List.map_cons, List.map_nil]
    rw [hAid]
  · rw [maxAssignmentId_append, hAid]
    exact max_eq_right (Nat.le_succ_of_le (le_refl _))

/-- A successful name-based save preserves the non-grade tables,
    named-assignment uniqueness, per-student grade uniqueness and
    well-formedness — and leaves behind exactly one assignment of the
    proposal's name and exactly one grade of this student on it. -/
theorem save_ok_analysis (db : DB) (cid sid : ℕ) (p : Proposal)
    (rid : ℕ) (db1 : DB)
    (hWF : WF db) (hc : db.courses.contains cid = true)
    (hsid : 1 ≤ sid) (hstu : ∃ s ∈ db.students, s.id = sid)
    (hnb : nameBasedProp p)
    (hok : save_calculated_grade db cid sid p = .ok (rid, db1)) :
    Pres cid db db1 ∧ p.name ≠ "" ∧ p.value ≠ .vnone ∧
    ∃ aid, 1 ≤ aid ∧ uniqA db1 cid p.name aid ∧ uniqG db1 sid aid := by
  have hname : p.name ≠ "" := by
    intro h0
    unfold save_calculated_grade at hok
    have hcond : (p.name == "" &&
        !(p.assignment_id != 0 || p.grade_id != 0)) = true := by
      simp [h0, hnb.1, hnb.2]
    rw [if_pos hcond] at hok
    exact Except.noConfusion hok
  have hval : p.value ≠ .vnone := by
    intro h0
    unfold save_calculated_grade at hok
    have h1 : (p.name == "") = false := by simpa using hname
    simp only [h1, Bool.false_and, Bool.false_eq_true, if_false] at hok
    have h2 : (p.value == GVal.vnone) = true := by simp [h0]
    rw [if_pos h2] at hok
    exact Except.noConfusion hok
  rw [save_unfold_name db cid sid p hnb hname hval] at hok
  cases hensA : ensure_unique (fun r => r.assignment_id)
      (select_assignments db 0 cid p.name) with
  | ok aid =>
    rw [hensA] at hok
    dsimp only at hok
    obtain ⟨r, hrsel, hraid⟩ := ensure_unique_ok _ _ _ hensA
    have hA : uniqA db cid p.name aid := by
      unfold uniqA
      rw [hrsel, List.map_cons, List.map_nil, hraid]
    obtain ⟨a, ham, hreq, -, -, -⟩ := select_assignments_mem db 0 cid
      p.name r (by rw [hrsel]; exact List.mem_singleton.mpr (Eq.refl _))
    have haida : a.id = aid := by
      rw [← hraid, hreq]
    have haid1 : 1 ≤ aid := by
      rw [← haida]; exact hWF.2.2.2.1 a ham
    have haidle : aid ≤ maxAssignmentId db := by
      rw [← haida]; exact le_maxAssignmentId db a ham
    cases hensG : ensure_unique (fun r => r.grade_id)
        (select_grades db sid 0 aid) with
    | ok gid =>
      rw [hensG] at hok
      dsimp only at hok
      injection hok with hok
      obtain ⟨r1, hr1sel, hr1gid⟩ := ensure_unique_ok _ _ _ hensG
      have hG : uniqG db sid aid := by
        unfold uniqG; rw [hr1sel]; rfl
      obtain ⟨g, hgm, hid, hstu1, hass, -, hs2, ha2⟩ :=
        select_grades_mem db sid 0 aid r1
          (by rw [hr1sel]; exact List.mem_singleton.mpr (Eq.refl _))
      have hrs : r1.student_id = sid := hs2 (by omega)
      have hra : r1.assignment_id = aid := ha2 (by omega)
      have hgid1 : 1 ≤ gid := by
        rw [← hr1gid, ← hid]; exact hWF.2.2.1 g hgm
      have hany : db.grades.any (fun g2 => g2.id == gid) = true := by
        rw [List.any_eq_true]
        exact ⟨g, hgm, by simp [hid, hr1gid]⟩
      have hl : ∀ g2 ∈ db.grades, g2.id = gid →
          g2.assignment_id = aid ∧ g2.student_id = sid := by
        intro g2 hg2 hid2
        have hg2g : g2 = g := List.inj_on_of_nodup_map hWF.1 hg2 hgm
          (by rw [hid2, hid, hr1gid])
        rw [hg2g]
        exact ⟨by rw [hass, hra], by rw [hstu1, hrs]⟩
      obtain ⟨-, hupd⟩ := create_or_update_replace db gid aid sid
        p.value (by omega) hany hl
      have hdb1 : db1 = (create_or_update_grade db gid aid sid p.value).2 :=
        (congrArg Prod.snd hok).symm
      rw [← hdb1] at hupd
      exact ⟨pres_of_updEq hupd, hname, hval, aid, haid1,
        updEq_uniqA hupd cid p.name aid hA, updEq_uniqG hupd sid aid hG⟩
    | error e =>
      cases e with
      | noRecordsFound =>
        rw [hensG] at hok
        dsimp only at hok
        have hsel0 := ensure_unique_noRecords _ _ hensG
        rw [create_or_update_insert] at hok
        injection hok with hok
        have hdb1 : db1 = { db with
            grades := db.grades ++
              [⟨nextGradeId db, aid, sid, storedVal p.value, db.clock⟩],
            clock := db.clock + 1 } :=
          (congrArg Prod.snd hok).symm
        obtain ⟨i1, i2, i3, i4, i5, i6, i7⟩ := insert_grade_step db sid aid
          p.value db1 hdb1 hWF ⟨a, ham, haida⟩ haidle hstu hsel0
        have hselc : ∀ aidp cidp nm',
            select_assignments db1 aidp cidp nm' =
              select_assignments db aidp cidp nm' :=
          fun aidp cidp nm' => select_assignments_congr db db1 i1 i4 aidp
            cidp nm'
        have huniqAc : ∀ nm' aid', uniqA db cid nm' aid' →
            uniqA db1 cid nm' aid' := by
          intro nm' aid' h0
          unfold uniqA at h0 ⊢
          rw [hselc]
          exact h0
        exact ⟨⟨i1, i2, i3, fun nm' aid' _ h0 => huniqAc nm' aid' h0,
          i5, fun _ => i6⟩, hname, hval, aid, haid1,
          huniqAc p.name aid hA, i7⟩
      | multipleRecordsFound =>
        rw [hensG] at hok
        exact absurd hok (fun hh => Except.noConfusion hh)
      | valueError m =>
        rw [hensG] at hok
        exact absurd hok (fun hh => Except.noConfusion hh)
      | scaleRangeError x y z =>
        rw [hensG] at hok
        exact absurd hok (fun hh => Except.noConfusion hh)
      | typeError m =>
        rw [hensG] at hok
        exact absurd hok (fun hh => Except.noConfusion hh)
      | indexError =>
        rw [hensG] at hok
        exact absurd hok (fun hh => Except.noConfusion hh)
      | zeroDivisionError =>
        rw [hensG] at hok
        exact absurd hok (fun hh => Except.noConfusion hh)
  | error e =>
    cases e with
    | noRecordsFound =>
      rw [hensA] at hok
      dsimp only at hok
      have hselA0 := ensure_unique_noRecords _ _ hensA
      have hca : create_assignment db cid p.name p.description p.due_date
          p.grade_type p.weight =
          (nextAssignmentId db, { db with
            assignments := db.assignments ++
              [⟨nextAssignmentId db, cid, optS p.name, optS p.description,
                optS p.due_date, optS p.grade_type,
                storedVal p.weight⟩] }) := rfl
      rw [hca] at hok
      dsimp only at hok
      obtain ⟨c1, c2, c3, c4, c5, c6, c7, c8, c9, c10, c11⟩ :=
        create_assignment_step db cid p.name p.description p.due_date
          p.grade_type p.weight _ _ (Eq.refl _) (Eq.refl _) hWF hc hname
          hselA0
      have hselG : select_grades { db with
          assignments := db.assignments ++
            [⟨nextAssignmentId db, cid, optS p.name, optS p.description,
              optS p.due_date, optS p.grade_type, storedVal p.weight⟩] }
          sid 0 (nextAssignmentId db) = [] := by
        rw [c5]
        exact select_grades_beyond db sid 0 (nextAssignmentId db)
          (Nat.lt_succ_of_le (le_refl _))
      rw [hselG] at hok
      have hens0 : ensure_unique (fun r => r.grade_id)
          ([] : List GradeSel) = .error .noRecordsFound := rfl
      rw [hens0] at hok
      dsimp only at hok
      rw [create_or_update_insert] at hok
      injection hok with hok
      have hdb1 := (congrArg Prod.snd hok).symm
      dsimp only at hdb1
      obtain ⟨i1, i2, i3, i4, i5, i6, i7⟩ := insert_grade_step _ sid
        (nextAssignmentId db) p.value db1 hdb1 c6
        ⟨⟨nextAssignmentId db, cid, optS p.name, optS p.description,
            optS p.due_date, optS p.grade_type, storedVal p.weight⟩,
          List.mem_append_right _ (List.mem_singleton.mpr (Eq.refl _)),
          Eq.refl _⟩
        (by rw [c8]) (by rw [c2] at hstu ⊢; exact hstu) hselG
      have hpresA : Pres cid db { db with
          assignments := db.assignments ++
            [⟨nextAssignmentId db, cid, optS p.name, optS p.description,
              optS p.due_date, optS p.grade_type, storedVal p.weight⟩] } := by
        refine ⟨c1, c2, c3, fun nm' aid' hnm' h0 => c4 nm' aid' hnm' h0,
          ?_, fun _ => c6⟩
        intro sid' aid' _ _ h0
        unfold uniqG at h0 ⊢
        rw [c5]
        exact h0
      have hpresB : Pres cid { db with
          assignments := db.assignments ++
            [⟨nextAssignmentId db, cid, optS p.name, optS p.description,
              optS p.due_date, optS p.grade_type, storedVal p.weight⟩] }
          db1 := by
        have hselc : ∀ aidp cidp nm',
            select_assignments db1 aidp cidp nm' =
              select_assignments { db with
                assignments := db.assignments ++
                  [⟨nextAssignmentId db, cid, optS p.name, optS p.description,
                    optS p.due_date, optS p.grade_type, storedVal p.weight⟩] }
                aidp cidp nm' :=
          fun aidp cidp nm' => select_assignments_congr _ db1 i1 i4 aidp
            cidp nm'
        refine ⟨i1, i2, i3, ?_, i5, fun _ => i6⟩
        intro nm' aid' _ h0
        unfold uniqA at h0 ⊢
        rw [hselc]
        exact h0
      refine ⟨pres_trans hpresA hpresB, hname, hval, nextAssignmentId db,
        Nat.succ_le_succ (Nat.zero_le _), ?_, i7⟩
      unfold uniqA at c7 ⊢
      rw [select_assignments_congr _ db1 i1 i4]
      exact c7
    | multipleRecordsFound =>
      rw [hensA] at hok
      exact absurd hok (fun hh => Except.noConfusion hh)
    | valueError m =>
      rw [hensA] at hok
      exact absurd hok (fun hh => Except.noConfusion hh)
    | scaleRangeError x y z =>
      rw [hensA] at hok
      exact absurd hok (fun hh => Except.noConfusion hh)
    | typeError m =>
      rw [hensA] at hok
      exact absurd hok (fun hh => Except.noConfusion hh)
    | indexError =>
      rw [hensA] at hok
      exact absurd hok (fun hh => Except.noConfusion hh)
    | zeroDivisionError =>
      rw [hensA] at hok
      exact absurd hok (fun hh => Except.noConfusion hh)

/-- Every selected course member is a row of the students table. -/
theorem select_students_mem (db : DB) (cid : ℕ) (st : StudentRow)
    (h : st ∈ select_students db cid) : st ∈ db.students := by
  unfold select_students at h
  by_cases hc : (cid == 0) = true
  · rw [if_pos hc] at h
    exact h
  · rw [if_neg hc] at h
    obtain ⟨m, -, hsome⟩ := List.mem_filterMap.mp h
    by_cases hcond : (m.course_id == cid && db.courses.contains m.course_id)
        = true
    · rw [if_pos hcond] at hsome
      exact List.mem_of_find?_eq_some hsome
    · rw [if_neg hcond] at hsome
      exact absurd hsome (fun hh => Option.noConfusion hh)

/-- `select_students` only reads the memberships, courses and students
    tables. -/
theorem select_students_congr (db db1 : DB) (hc : db1.courses = db.courses)
    (hs : db1.students = db.students) (hm : db1.memberships = db.memberships)
    (cid : ℕ) : select_students db1 cid = select_students db cid := by
  unfold select_students
  rw [hc, hs, hm]

/-- A positive course id outside the courses table selects no
    members. -/
theorem select_students_empty (db : DB) (cid : ℕ) (hcid : 1 ≤ cid)
    (hc : db.courses.contains cid = false) : select_students db cid = [] := by
  unfold select_students
  rw [if_neg (by simp; omega)]
  rw [List.filterMap_eq_nil_iff]
  intro m hm
  by_cases hmc : (m.course_id == cid) = true
  · have hmc' : m.course_id = cid := by simpa using hmc
    rw [if_neg (by rw [hmc', hc]; simp)]
  · rw [if_neg (by simp [hmc])]

/-- Persisting a list of name-based proposals, when it succeeds,
    satisfies the preservation contract and leaves every proposal's
    named assignment unique with a unique grade of the student on
    it. -/
theorem saveProps_ok_analysis (cid sid : ℕ) (props : List Proposal) :
    ∀ db dbf : DB, WF db → db.courses.contains cid = true →
    1 ≤ sid → (∃ s ∈ db.students, s.id = sid) →
    (∀ p ∈ props, nameBasedProp p) →
    saveProps cid sid props db = .ok dbf →
    Pres cid db dbf ∧ ∀ p ∈ props, p.name ≠ "" ∧ p.value ≠ .vnone ∧
      ∃ aid, 1 ≤ aid ∧ uniqA dbf cid p.name aid ∧ uniqG dbf sid aid := by
  induction props with
  | nil =>
    intro db dbf _ _ _ _ _ hok
    have heq : saveProps cid sid [] db = .ok db := rfl
    rw [heq] at hok
    injection hok with hok
    subst hok
    exact ⟨pres_refl cid db, fun p hp => absurd hp (List.not_mem_nil p)⟩
  | cons p ps ih =>
    intro db dbf hWF hc hsid hstu hnb hok
    have heq : saveProps cid sid (p :: ps) db =
        match save_calculated_grade db cid sid p with
        | .ok (_, db1) => saveProps cid sid ps db1
        | .error e => .error e := rfl
    rw [heq] at hok
    cases hsv : save_calculated_grade db cid sid p with
    | ok pr =>
      obtain ⟨rid, db1⟩ := pr
      rw [hsv] at hok
      dsimp only at hok
      obtain ⟨hp1, hname, hval, aid, haid1, hA1, hG1⟩ :=
        save_ok_analysis db cid sid p rid db1 hWF hc hsid hstu
          (hnb p (List.mem_cons_self p ps)) hsv
      have hWF1 : WF db1 := hp1.2.2.2.2.2 hWF
      have hc1 : db1.courses.contains cid = true := by
        rw [hp1.1]; exact hc
      have hstu1 : ∃ s ∈ db1.students, s.id = sid := by
        rw [hp1.2.1]; exact hstu
      obtain ⟨hp2, hrest⟩ := ih db1 dbf hWF1 hc1 hsid hstu1
        (fun q hq => hnb q (List.mem_cons_of_mem p hq)) hok
      refine ⟨pres_trans hp1 hp2, ?_⟩
      intro q hq
      rcases List.mem_cons.mp hq with hq | hq
      · subst hq
        exact ⟨hname, hval, aid, haid1,
          hp2.2.2.2.1 q.name aid hname hA1,
          hp2.2.2.2.2.1 sid aid hsid haid1 hG1⟩
      · exact hrest q hq
    | error e =>
      rw [hsv] at hok
      exact absurd hok (fun hh => Except.noConfusion hh)

/-- A successful per-student loop satisfies the preservation contract,
    and at its final store every proposal the user function emitted for
    a processed student has a unique named assignment carrying a unique
    grade of that student. -/
theorem runStudents_ok_analysis (f : CalcFunc) (cid : ℕ)
    (ag : List GRecord) (hNB : NameBased f) (students : List StudentRow) :
    ∀ (db dbf : DB) (sk : List ℕ), WF db →
    db.courses.contains cid = true →
    (∀ st ∈ students, 1 ≤ st.id ∧ ∃ s ∈ db.students, s.id = st.id) →
    runStudents f cid ag students db = .ok (dbf, sk) →
    Pres cid db dbf ∧ ∀ st ∈ students, ∀ props,
      f (entered_for ag st.id) = .ok props →
      ∀ p ∈ props, p.name ≠ "" ∧ p.value ≠ .vnone ∧
        ∃ aid, 1 ≤ aid ∧ uniqA dbf cid p.name aid ∧ uniqG dbf st.id aid := by
  induction students with
  | nil =>
    intro db dbf sk _ _ _ hok
    have heq : runStudents f cid ag [] db = .ok (db, []) := rfl
    rw [heq] at hok
    injection hok with hok
    have hdb : db = dbf := congrArg Prod.fst hok
    subst hdb
    exact ⟨pres_refl cid db, fun st hst => absurd hst (List.not_mem_nil st)⟩
  | cons st rest ih =>
    intro db dbf sk hWF hc hstu hok
    have heq : runStudents f cid ag (st :: rest) db =
        match f (entered_for ag st.id) with
        | .error _ =>
          match runStudents f cid ag rest db with
          | .ok (db1, sk) => .ok (db1, st.id :: sk)
          | .error e => .error e
        | .ok props =>
          match saveProps cid st.id props db with
          | .ok db1 => runStudents f cid ag rest db1
          | .error e => .error e := rfl
    rw [heq] at hok
    cases hf : f (entered_for ag st.id) with
    | error e =>
      rw [hf] at hok
      dsimp only at hok
      cases hrec : runStudents f cid ag rest db with
      | ok pr =>
        obtain ⟨db1, sk'⟩ := pr
        rw [hrec] at hok
        dsimp only at hok
        injection hok with hok
        have hdb1 : db1 = dbf := congrArg Prod.fst hok
        subst hdb1
        obtain ⟨hp, hrest⟩ := ih db db1 sk' hWF hc
          (fun s hs => hstu s (List.mem_cons_of_mem st hs)) hrec
        refine ⟨hp, ?_⟩
        intro s hs props hfp
        rcases List.mem_cons.mp hs with hs | hs
        · subst hs
          rw [hf] at hfp
          exact absurd hfp (fun hh => Except.noConfusion hh)
        · exact hrest s hs props hfp
      | error e2 =>
        rw [hrec] at hok
        exact absurd hok (fun hh => Except.noConfusion hh)
    | ok props =>
      rw [hf] at hok
      dsimp only at hok
      cases hsp : saveProps cid st.id props db with
      | ok db1 =>
        rw [hsp] at hok
        dsimp only at hok
        obtain ⟨hst1, hstu_st⟩ := hstu st (List.mem_cons_self st rest)
        obtain ⟨hp1, hprops⟩ := saveProps_ok_analysis cid st.id props db db1
          hWF hc hst1 hstu_st (fun p hp => hNB _ props hf p hp) hsp
        have hWF1 : WF db1 := hp1.2.2.2.2.2 hWF
        have hc1 : db1.courses.contains cid = true := by
          rw [hp1.1]; exact hc
        have hstu' : ∀ s ∈ rest, 1 ≤ s.id ∧
            ∃ s2 ∈ db1.students, s2.id = s.id := by
          intro s hs
          obtain ⟨h1, h2⟩ := hstu s (List.mem_cons_of_mem st hs)
          exact ⟨h1, by rw [hp1.2.1]; exact h2⟩
        obtain ⟨hp2, hrest⟩ := ih db1 dbf sk hWF1 hc1 hstu' hok
        refine ⟨pres_trans hp1 hp2, ?_⟩
        intro s hs props' hfp
        rcases List.mem_cons.mp hs with hs | hs
        · subst hs
          rw [hf] at hfp
          injection hfp with hfp
          subst hfp
          intro p hp
          obtain ⟨hname, hval, aid, haid1, hA, hG⟩ := hprops p hp
          exact ⟨hname, hval, aid, haid1,
            hp2.2.2.2.1 p.name aid hname hA,
            hp2.2.2.2.2.1 s.id aid hst1 haid1 hG⟩
        · exact hrest s hs props' hfp
      | error e =>
        rw [hsp] at hok
        exact absurd hok (fun hh => Except.noConfusion hh)

/-- Replaying a list of name-based proposals whose named assignments
    are already unique with unique grades succeeds and performs only
    in-place grade updates. -/
theorem saveProps_update_run (cid sid : ℕ) (props : List Proposal) :
    ∀ db : DB, WF db → 1 ≤ sid →
    (∀ p ∈ props, nameBasedProp p ∧ p.name ≠ "" ∧ p.value ≠ .vnone ∧
      ∃ aid, 1 ≤ aid ∧ uniqA db cid p.name aid ∧ uniqG db sid aid) →
    ∃ dbf, saveProps cid sid props db = .ok dbf ∧ UpdEq db dbf := by
  induction props with
  | nil =>
    intro db _ _ _
    exact ⟨db, rfl, updEq_refl db⟩
  | cons p ps ih =>
    intro db hWF hsid hall
    obtain ⟨hnb, hname, hval, aid, haid1, hA, hG⟩ :=
      hall p (List.mem_cons_self p ps)
    obtain ⟨rid, db1, hsv, hupd⟩ := save_update_step db cid sid p aid hWF
      hnb hname hval hsid hA hG
    have hWF1 : WF db1 := updEq_WF hupd hWF
    have hall1 : ∀ q ∈ ps, nameBasedProp q ∧ q.name ≠ "" ∧
        q.value ≠ .vnone ∧ ∃ aid2, 1 ≤ aid2 ∧ uniqA db1 cid q.name aid2 ∧
          uniqG db1 sid aid2 := by
      intro q hq
      obtain ⟨h1, h2, h3, aid2, h4, h5, h6⟩ :=
        hall q (List.mem_cons_of_mem p hq)
      exact ⟨h1, h2, h3, aid2, h4, updEq_uniqA hupd cid q.name aid2 h5,
        updEq_uniqG hupd sid aid2 h6⟩
    obtain ⟨dbf, hsp, hupd2⟩ := ih db1 hWF1 hsid hall1
    refine ⟨dbf, ?_, updEq_trans hupd hupd2⟩
    have heq : saveProps cid sid (p :: ps) db =
        match save_calculated_grade db cid sid p with
        | .ok (_, db1) => saveProps cid sid ps db1
        | .error e => .error e := rfl
    rw [heq, hsv]
    exact hsp

/-- Replaying the per-student loop on a store where every processed
    proposal already has its unique assignment and grade succeeds and
    changes nothing but grade values and timestamps. -/
theorem runStudents_updates (f : CalcFunc) (cid : ℕ) (ag : List GRecord)
    (students : List StudentRow) :
    ∀ db : DB, WF db → (∀ st ∈ students, 1 ≤ st.id) →
    (∀ st ∈ students, ∀ props, f (entered_for ag st.id) = .ok props →
      ∀ p ∈ props, nameBasedProp p ∧ p.name ≠ "" ∧ p.value ≠ .vnone ∧
        ∃ aid, 1 ≤ aid ∧ uniqA db cid p.name aid ∧ uniqG db st.id aid) →
    ∃ dbf sk, runStudents f cid ag students db = .ok (dbf, sk) ∧
      UpdEq db dbf := by
  induction students with
  | nil =>
    intro db _ _ _
    exact ⟨db, [], rfl, updEq_refl db⟩
  | cons st rest ih =>
    intro db hWF hids hready
    have heq : runStudents f cid ag (st :: rest) db =
        match f (entered_for ag st.id) with
        | .error _ =>
          match runStudents f cid ag rest db with
          | .ok (db1, sk) => .ok (db1, st.id :: sk)
          | .error e => .error e
        | .ok props =>
          match saveProps cid st.id props db with
          | .ok db1 => runStudents f cid ag rest db1
          | .error e => .error e := rfl
    cases hf : f (entered_for ag st.id) with
    | error e =>
      obtain ⟨dbf, sk, hrun, hupd⟩ := ih db hWF
        (fun s hs => hids s (List.mem_cons_of_mem st hs))
        (fun s hs => hready s (List.mem_cons_of_mem st hs))
      refine ⟨dbf, st.id :: sk, ?_, hupd⟩
      rw [heq, hf]
      dsimp only
      rw [hrun]
    | ok props =>
      have hready_st := hready st (List.mem_cons_self st rest) props hf
      obtain ⟨db1, hsp, hupd1⟩ := saveProps_update_run cid st.id props db
        hWF (hids st (List.mem_cons_self st rest)) hready_st
      have hWF1 : WF db1 := updEq_WF hupd1 hWF
      have hready1 : ∀ s ∈ rest, ∀ props',
          f (entered_for ag s.id) = .ok props' →
          ∀ p ∈ props', nameBasedProp p ∧ p.name ≠ "" ∧
            p.value ≠ .vnone ∧ ∃ aid, 1 ≤ aid ∧
              uniqA db1 cid p.name aid ∧ uniqG db1 s.id aid := by
        intro s hs props' hfp p hp
        obtain ⟨h1, h2, h3, aid, h4, h5, h6⟩ :=
          hready s (List.mem_cons_of_mem st hs) props' hfp p hp
        exact ⟨h1, h2, h3, aid, h4, updEq_uniqA hupd1 cid p.name aid h5,
          updEq_uniqG hupd1 s.id aid h6⟩
      obtain ⟨dbf, sk, hrun, hupd2⟩ := ih db1 hWF1
        (fun s hs => hids s (List.mem_cons_of_mem st hs)) hready1
      refine ⟨dbf, sk, ?_, updEq_trans hupd1 hupd2⟩
      rw [heq, hf]
      dsimp only
      rw [hsp]
      exact hrun

/-- C1: Recalculation is idempotent.  For a well-formed store and a
    user function emitting name-based proposals, if a course
    recalculation run succeeds and a second run on the resulting store
    sees the same entered grades for every member, then the second run
    leaves the persisted grade-row count unchanged and creates no
    assignment rows: each proposal's grade is found by the
    student/assignment lookup and updated in place through its
    grade_id, so no duplicate calculated grades accumulate. -/
theorem recalculation_idempotent (f : CalcFunc) (cid : ℕ)
    (db0 db1 db2 : DB) (sk1 sk2 : List ℕ)
    (hWF : WF db0) (hcid : 1 ≤ cid) (hNB : NameBased f)
    (h1 : calculate_grades f cid db0 = .ok (db1, sk1))
    (h2 : calculate_grades f cid db1 = .ok (db2, sk2))
    (hsame : ∀ st ∈ select_students db0 cid,
      entered_for (select_grades_for_course_members db1 cid) st.id =
        entered_for (select_grades_for_course_members db0 cid) st.id) :
    db2.grades.length = db1.grades.length ∧
      db2.assignments = db1.assignments := by
  cases hc : db0.courses.contains cid with
  | false =>
    have hs0 : select_students db0 cid = [] :=
      select_students_empty db0 cid hcid hc
    unfold calculate_grades at h1
    rw [hs0] at h1
    have h1' : (Except.ok (db0, ([] : List ℕ)) :
        Except PyErr (DB × List ℕ)) = .ok (db1, sk1) := h1
    injection h1' with h1'
    have hdb01 : db0 = db1 := congrArg Prod.fst h1'
    have hs1 : select_students db1 cid = [] := by
      rw [← hdb01]; exact hs0
    unfold calculate_grades at h2
    rw [hs1] at h2
    have h2' : (Except.ok (db1, ([] : List ℕ)) :
        Except PyErr (DB × List ℕ)) = .ok (db2, sk2) := h2
    injection h2' with h2'
    have hdb12 : db1 = db2 := congrArg Prod.fst h2'
    rw [← hdb12]
    exact ⟨rfl, rfl⟩
  | true =>
    unfold calculate_grades at h1 h2
    have hstu0 : ∀ st ∈ select_students db0 cid, 1 ≤ st.id ∧
        ∃ s ∈ db0.students, s.id = st.id := by
      intro st hst
      have hmem := select_students_mem db0 cid st hst
      exact ⟨hWF.2.2.2.2.1 st hmem, st, hmem, rfl⟩
    obtain ⟨hp1, hfacts⟩ := runStudents_ok_analysis f cid
      (select_grades_for_course_members db0 cid) hNB
      (select_students db0 cid) db0 db1 sk1 hWF hc hstu0 h1
    have hWF1 : WF db1 := hp1.2.2.2.2.2 hWF
    have hss1 : select_students db1 cid = select_students db0 cid :=
      select_students_congr db0 db1 hp1.1 hp1.2.1 hp1.2.2.1 cid
    have hids : ∀ st ∈ select_students db1 cid, 1 ≤ st.id := by
      intro st hst
      rw [hss1] at hst
      exact (hstu0 st hst).1
    have hready : ∀ st ∈ select_students db1 cid, ∀ props,
        f (entered_for (select_grades_for_course_members db1 cid) st.id) =
          .ok props →
        ∀ p ∈ props, nameBasedProp p ∧ p.name ≠ "" ∧ p.value ≠ .vnone ∧
          ∃ aid, 1 ≤ aid ∧ uniqA db1 cid p.name aid ∧
            uniqG db1 st.id aid := by
      intro st hst props hfp p hp
      rw [hss1] at hst
      rw [hsame st hst] at hfp
      obtain ⟨hname, hval, aid, haid1, hA, hG⟩ :=
        hfacts st hst props hfp p hp
      exact ⟨hNB _ props hfp p hp, hname, hval, aid, haid1, hA, hG⟩
    obtain ⟨dbf, sk, hrun, hupd⟩ := runStudents_updates f cid
      (select_grades_for_course_members db1 cid)
      (select_students db1 cid) db1 hWF1 hids hready
    rw [hrun] at h2
    injection h2 with h2
    have hdbf : dbf = db2 := congrArg Prod.fst h2
    subst hdbf
    constructor
    · have hm := hupd.2.2.2.2
      have hl := congrArg List.length hm
      simpa using hl
    · exact hupd.2.2.2.1

/-- Concrete instance of the idempotence theorem: on the one-member
    witness store both runs succeed with no skips, the entered grades
    are unchanged across the first run, and the second run preserves
    the grade-row count and the assignments table. -/
theorem recalculation_idempotent_witness :
    wdb1b.grades.length = wdb1a.grades.length ∧
      wdb1b.assignments = wdb1a.assignments :=
  recalculation_idempotent wf1 1 wdb1 wdb1a wdb1b [] []
    (by constructor
        · with_unfolding_all decide
        constructor
        · with_unfolding_all decide
        constructor
        · intro g hg
          rw [show wdb1.grades = [⟨1, 1, 1, .vnum (.fin 3), 0⟩] from rfl]
            at hg
          rw [List.mem_singleton.mp hg]
        constructor
        · intro a ha
          rw [show wdb1.assignments = [⟨1, 1, some "hw", none, none,
              some "4points", .vnum (.fin 1)⟩] from rfl] at ha
          rw [List.mem_singleton.mp ha]
        constructor
        · intro s hs
          rw [show wdb1.students = [⟨1, "Doe", "Jo", "123"⟩] from rfl]
            at hs
          rw [List.mem_singleton.mp hs]
        · intro g hg
          rw [show wdb1.grades = [⟨1, 1, 1, .vnum (.fin 3), 0⟩] from rfl]
            at hg
          rw [List.mem_singleton.mp hg]
          with_unfolding_all decide)
    (by decide)
    (by intro gs props h p hp
        injection h with h
        subst h
        rw [List.mem_singleton.mp hp]
        exact ⟨rfl, rfl⟩)
    (by with_unfolding_all rfl)
    (by with_unfolding_all rfl)
    (by intro st hst
        rw [show select_students wdb1 1 = [⟨1, "Doe", "Jo", "123"⟩] from
          by with_unfolding_all rfl] at hst
        rw [List.mem_singleton.mp hst]
        with_unfolding_all rfl)

end Schoolutils
